import Mathlib

/-!
# AuthContext.jsx — session store, bootstrap, login, logout, useAuth

A shallow embedding of `src/artgalleryproj-fsad/src/context/AuthContext.jsx`.

The component is glue around three platform services, so the embedding has two layers.

* The platform layer models what the source calls but does not define: JavaScript
  values and truthiness, `JSON.stringify` / `JSON.parse`, `localStorage`
  (`getItem`, `setItem`, `removeItem`) and the outcome of `fetch`.
  Strings are sequences of UTF-16 code units (`List Nat`), exactly what a JavaScript
  string is.  Numbers are kept as exact decimals `± digits × 10 ^ exp` together with the
  non-finite values; overflow to `Infinity` and underflow to zero happen at the IEEE-754
  double thresholds, the rounding of the significand to 53 bits is not modelled.
  Of the three storage methods only `setItem` can throw (QuotaExceededError, as the Web
  Storage standard says); `getItem` and `removeItem` always complete.
  Credentials and response bodies range over `undefined`, `null` and JSON data.
* The component layer follows the source line by line: `bootstrap` (the mount effect),
  `login`, `logout`, the provider `value` and `useAuth`.
-/

namespace AuthContext

/-! ## JavaScript strings -/

/-- A JavaScript string: a sequence of UTF-16 code units. -/
abbrev JSString := List Nat

/-- UTF-16 code units of one Unicode scalar value. -/
def encodeChar (c : Char) : JSString :=
  if c.toNat < 65536 then [c.toNat]
  else [55296 + (c.toNat - 65536) / 1024, 56320 + (c.toNat - 65536) % 1024]

/-- The JavaScript string written by a literal. -/
def js (s : String) : JSString :=
  s.data.flatMap encodeChar

/-! ## JavaScript values -/

/-- A JavaScript number as JSON can produce or a record can hold: `NaN`, `±Infinity`, or the
finite value `± digits × 10 ^ exp`.  Zero is `digits = 0` (`neg = true` is `-0`). -/
inductive Number where
  | nan
  | inf (neg : Bool)
  | fin (neg : Bool) (digits : Nat) (exp : Int)
  deriving DecidableEq, Repr

/-- JavaScript values reachable in this program: `undefined`, and the JSON data values.
An object is its list of own enumerable properties in property order. -/
inductive Val where
  | undefined
  | null
  | bool (b : Bool)
  | num (n : Number)
  | str (s : JSString)
  | arr (xs : List Val)
  | obj (ps : List (JSString × Val))
  deriving Repr

/-- The own properties of an object. -/
abbrev Props := List (JSString × Val)

/-- Exceptions and promise rejections. -/
inductive Exn where
  | typeError
  | syntaxError
  | quotaExceeded
  | rejected (reason : String)
  | error (message : String)
  deriving DecidableEq, Repr

/-- ToBoolean on a number: `NaN`, `+0` and `-0` are falsy. -/
def Number.truthy : Number → Bool
  | .nan => false
  | .inf _ => true
  | .fin _ digits _ => digits != 0

/-- ToBoolean. -/
def Val.truthy : Val → Bool
  | .undefined => false
  | .null => false
  | .bool b => b
  | .num n => n.truthy
  | .str s => !s.isEmpty
  | .arr _ => true
  | .obj _ => true

/-- Own-property lookup; a missing property reads as `undefined`. -/
def lookup (k : JSString) : Props → Val
  | [] => .undefined
  | (k', v) :: ps => if k' = k then v else lookup k ps

/-- Property read `v.k` for a key that no built-in prototype defines (the only keys this
program reads are `email`, `password`, `userid`, `firstName`, `lastName`, `fullName`):
a TypeError on `undefined` and `null`, the own property of an object, `undefined` on the
other values. -/
def Val.getProp (v : Val) (k : JSString) : Except Exn Val :=
  match v with
  | .undefined => .error .typeError
  | .null => .error .typeError
  | .obj ps => .ok (lookup k ps)
  | _ => .ok .undefined

/-- Property read where a throw cannot be observed: `undefined` stands for the throw. -/
def Val.get (v : Val) (k : JSString) : Val :=
  match v.getProp k with
  | .ok x => x
  | .error _ => .undefined

/-! ## Decimal digits -/

/-- The code unit of a decimal digit character. -/
def isDigit (c : Nat) : Bool := 48 ≤ c && c ≤ 57

/-- Decimal digits of `n`, most significant first, prepended to `acc`. -/
def decimalAux : Nat → Nat → JSString → JSString
  | 0, n, acc => (n % 10 + 48) :: acc
  | fuel + 1, n, acc =>
    if n < 10 then (n + 48) :: acc else decimalAux fuel (n / 10) ((n % 10 + 48) :: acc)

/-- The decimal numeral of a natural number. -/
def decimal (n : Nat) : JSString := decimalAux n n []

/-- Append one decimal digit character to the value read so far. -/
def digitStep (acc c : Nat) : Nat := acc * 10 + (c - 48)

/-- The value of a sequence of decimal digit characters. -/
def ofDigits (cs : JSString) : Nat := cs.foldl digitStep 0

/-- The longest prefix of decimal digits, and the rest. -/
def takeDigits : JSString → JSString × JSString
  | [] => ([], [])
  | c :: cs =>
    if isDigit c then ((takeDigits cs).1.cons c, (takeDigits cs).2) else ([], c :: cs)

/-! ## Numbers: `Number::toString` and the JSON number token -/

/-- Number::toString(x) in radix 10 (ECMA-262, 6.1.6.1.20) for a positive finite `x`, with
`s` the significand, `k` its number of digits and `n = e + k`. -/
def unsignedToJSString (s : Nat) (e : Int) : JSString :=
  let ds := decimal s
  let k : Int := ds.length
  let n : Int := e + k
  if k ≤ n ∧ n ≤ 21 then ds ++ List.replicate (n - k).toNat 48
  else if 0 < n ∧ n ≤ 21 then ds.take n.toNat ++ 46 :: ds.drop n.toNat
  else if -6 < n ∧ n ≤ 0 then 48 :: 46 :: (List.replicate (-n).toNat 48 ++ ds)
  else
    let sign : Nat := if n - 1 < 0 then 45 else 43
    match ds with
    | [] => []
    | d :: rest =>
      match rest with
      | [] => d :: 101 :: sign :: decimal (n - 1).natAbs
      | _ :: _ => d :: 46 :: (rest ++ 101 :: sign :: decimal (n - 1).natAbs)

/-- Number::toString(x) in radix 10: `NaN`, the infinities, `0` for both zeros, a minus
sign before the numeral of a negative number. -/
def Number.toJSString : Number → JSString
  | .nan => js "NaN"
  | .inf false => js "Infinity"
  | .inf true => js "-Infinity"
  | .fin neg s e =>
    if s = 0 then js "0"
    else if neg then 45 :: unsignedToJSString s e
    else unsignedToJSString s e

/-- Remove trailing decimal zeros from a nonzero significand, raising the exponent. -/
def stripZeros : Nat → Nat → Int → Nat × Int
  | 0, m, e => (m, e)
  | fuel + 1, m, e => if m % 10 = 0 then stripZeros fuel (m / 10) (e + 1) else (m, e)

/-- The value `m × 10 ^ e` rounds to `Infinity` as a double:
it is at least `2 ^ 1024 - 2 ^ 970`. -/
def overflows (m : Nat) (e : Int) : Bool :=
  if 0 ≤ e then decide (2 ^ 1024 - 2 ^ 970 ≤ m * 10 ^ e.toNat)
  else decide ((2 ^ 1024 - 2 ^ 970) * 10 ^ (-e).toNat ≤ m)

/-- The value `m × 10 ^ e` rounds to zero as a double: it is at most `2 ^ (-1075)`. -/
def underflows (m : Nat) (e : Int) : Bool :=
  decide (e < 0) && decide (m * 2 ^ 1075 ≤ 10 ^ (-e).toNat)

/-- The Number denoted by the decimal `± m × 10 ^ e` (StringToNumber up to the rounding of
the significand). -/
def mkNumber (neg : Bool) (m : Nat) (e : Int) : Number :=
  if m = 0 then .fin neg 0 0
  else
    let p := stripZeros m m e
    if overflows p.1 p.2 then .inf neg
    else if underflows p.1 p.2 then .fin neg 0 0
    else .fin neg p.1 p.2

/-- JSON `int`: `0`, or a nonzero digit followed by digits. -/
def parseInt : JSString → Option (JSString × JSString)
  | [] => none
  | c :: r =>
    if c = 48 then some ([48], r)
    else if isDigit c then some (c :: (takeDigits r).1, (takeDigits r).2)
    else none

/-- JSON `frac`: nothing, or `.` followed by at least one digit. -/
def parseFrac : JSString → Option (JSString × JSString)
  | 46 :: r => if (takeDigits r).1 = [] then none else some (takeDigits r)
  | cs => some ([], cs)

/-- Digits of a JSON exponent after its sign: at least one. -/
def parseExpDigits (neg : Bool) (cs : JSString) : Option (Int × JSString) :=
  if (takeDigits cs).1 = [] then none
  else
    some (if neg then -((ofDigits (takeDigits cs).1 : Nat) : Int)
      else ((ofDigits (takeDigits cs).1 : Nat) : Int), (takeDigits cs).2)

/-- JSON `exp`: nothing, or `e` / `E`, an optional sign and at least one digit. -/
def parseExp : JSString → Option (Int × JSString)
  | [] => some (0, [])
  | c :: r =>
    if c = 101 ∨ c = 69 then
      match r with
      | 43 :: r1 => parseExpDigits false r1
      | 45 :: r1 => parseExpDigits true r1
      | _ => parseExpDigits false r
    else some (0, c :: r)

/-- The unsigned part of a JSON number token. -/
def parseUnsigned (neg : Bool) (cs : JSString) : Option (Number × JSString) :=
  match parseInt cs with
  | none => none
  | some (ip, r1) =>
    match parseFrac r1 with
    | none => none
    | some (fp, r2) =>
      match parseExp r2 with
      | none => none
      | some (ex, r3) => some (mkNumber neg (ofDigits (ip ++ fp)) (ex - fp.length), r3)

/-- A JSON number token at the head of the input. -/
def parseNumber : JSString → Option (Number × JSString)
  | 45 :: r => parseUnsigned true r
  | cs => parseUnsigned false cs

/-! ## Strings: `QuoteJSONString` and the JSON string token -/

/-- A lowercase hexadecimal digit character. -/
def hexDigit (d : Nat) : Nat := if d < 10 then d + 48 else d + 87

/-- The value of a hexadecimal digit character, either case. -/
def hexVal (c : Nat) : Option Nat :=
  if 48 ≤ c ∧ c ≤ 57 then some (c - 48)
  else if 97 ≤ c ∧ c ≤ 102 then some (c - 87)
  else if 65 ≤ c ∧ c ≤ 70 then some (c - 55)
  else none

/-- UnicodeEscape: `\uXXXX` with four lowercase hexadecimal digits. -/
def unicodeEscape (c : Nat) : JSString :=
  [92, 117, hexDigit (c / 4096 % 16), hexDigit (c / 256 % 16), hexDigit (c / 16 % 16),
    hexDigit (c % 16)]

/-- A leading (high) surrogate code unit. -/
def isHigh (c : Nat) : Bool := 55296 ≤ c && c ≤ 56319

/-- A trailing (low) surrogate code unit. -/
def isLow (c : Nat) : Bool := 56320 ≤ c && c ≤ 57343

/-- QuoteJSONString on one code unit that is not part of a surrogate pair. -/
def quoteUnit (c : Nat) : JSString :=
  if c = 8 then [92, 98]
  else if c = 9 then [92, 116]
  else if c = 10 then [92, 110]
  else if c = 12 then [92, 102]
  else if c = 13 then [92, 114]
  else if c = 34 then [92, 34]
  else if c = 92 then [92, 92]
  else if c < 32 ∨ isHigh c ∨ isLow c then unicodeEscape c
  else [c]

/-- QuoteJSONString without the surrounding quotes: a surrogate pair is copied, every other
code unit goes through `quoteUnit`. -/
def quoteUnits : JSString → JSString
  | [] => []
  | [c] => quoteUnit c
  | c :: d :: r =>
    if isHigh c ∧ isLow d then c :: d :: quoteUnits r
    else quoteUnit c ++ quoteUnits (d :: r)

/-- QuoteJSONString. -/
def quote (s : JSString) : JSString := 34 :: (quoteUnits s ++ [34])

/-- The escape after a backslash in a JSON string token: the code unit it denotes and the
rest of the input. -/
def parseEscape : JSString → Option (Nat × JSString)
  | [] => none
  | e :: r1 =>
    if e = 117 then
      match r1 with
      | a :: b :: c :: d :: r2 =>
        match hexVal a, hexVal b, hexVal c, hexVal d with
        | some x, some y, some z, some w => some (x * 4096 + y * 256 + z * 16 + w, r2)
        | _, _, _, _ => none
      | _ => none
    else if e = 34 then some (34, r1)
    else if e = 92 then some (92, r1)
    else if e = 47 then some (47, r1)
    else if e = 98 then some (8, r1)
    else if e = 102 then some (12, r1)
    else if e = 110 then some (10, r1)
    else if e = 114 then some (13, r1)
    else if e = 116 then some (9, r1)
    else none

/-- The characters of a JSON string token after the opening quote, up to the closing
quote; `fuel` bounds the number of characters read. -/
def parseChars : Nat → JSString → Option (JSString × JSString)
  | 0, _ => none
  | _ + 1, [] => none
  | fuel + 1, c :: r =>
    if c = 34 then some ([], r)
    else if c = 92 then
      match parseEscape r with
      | none => none
      | some (x, r1) => (parseChars fuel r1).map (fun p => (x :: p.1, p.2))
    else if c < 32 then none
    else (parseChars fuel r).map (fun p => (c :: p.1, p.2))

/-! ## Objects: property order -/

/-- The array index a property key denotes, if it is the canonical numeral of an integer
below `2 ^ 32 - 1`. -/
def arrayIndex (k : JSString) : Option Nat :=
  if k ≠ [] ∧ k.all isDigit = true ∧ decimal (ofDigits k) = k ∧ ofDigits k < 4294967295 then
    some (ofDigits k)
  else none

/-- Whether an object has an own property `k`. -/
def hasKey (k : JSString) : Props → Bool
  | [] => false
  | (k', _) :: ps => k' = k || hasKey k ps

/-- Overwrite the value of the existing own property `k`, keeping its position. -/
def replaceProp (k : JSString) (v : Val) : Props → Props
  | [] => []
  | (k', v') :: ps => if k' = k then (k, v) :: ps else (k', v') :: replaceProp k v ps

/-- Add the new array-index property `k = i`: array indices come first, in ascending
order. -/
def insertIndex (i : Nat) (k : JSString) (v : Val) : Props → Props
  | [] => [(k, v)]
  | (k', v') :: ps =>
    match arrayIndex k' with
    | some j => if j < i then (k', v') :: insertIndex i k v ps else (k, v) :: (k', v') :: ps
    | none => (k, v) :: (k', v') :: ps

/-- CreateDataProperty on an ordinary object, seen through OrdinaryOwnPropertyKeys: an
existing property keeps its place, a new array index is sorted among the array indices, any
other new key goes last. -/
def setProp (ps : Props) (k : JSString) (v : Val) : Props :=
  if hasKey k ps then replaceProp k v ps
  else
    match arrayIndex k with
    | some i => insertIndex i k v ps
    | none => ps ++ [(k, v)]

/-! ## `JSON.stringify` -/

/-- Join the serialised parts with commas. -/
def joinComma : List JSString → JSString
  | [] => []
  | p :: ps =>
    match ps with
    | [] => p
    | _ :: _ => p ++ 44 :: joinComma ps

mutual
/-- SerializeJSONProperty without replacer and indentation; `none` is `undefined`. A
non-finite number is written `null`. -/
def serialize : Val → Option JSString
  | .undefined => none
  | .null => some (js "null")
  | .bool b => some (if b then js "true" else js "false")
  | .num n =>
    match n with
    | .fin _ _ _ => some n.toJSString
    | _ => some (js "null")
  | .str s => some (quote s)
  | .arr xs => some (91 :: (joinComma (serializeElems xs) ++ [93]))
  | .obj ps => some (123 :: (joinComma (serializeProps ps) ++ [125]))
/-- SerializeJSONArray: the elements, `undefined` written as `null`. -/
def serializeElems : List Val → List JSString
  | [] => []
  | x :: xs => (serialize x).getD (js "null") :: serializeElems xs
/-- SerializeJSONObject: the members in property order, `undefined` values left out. -/
def serializeProps : Props → List JSString
  | [] => []
  | (k, v) :: ps =>
    match serialize v with
    | none => serializeProps ps
    | some t => (quote k ++ 58 :: t) :: serializeProps ps
end

/-- The function `JSON.stringify(value)`; `none` is the result `undefined`. -/
def JSON.stringify (value : Val) : Option JSString := serialize value

/-! ## `JSON.parse` -/

/-- JSON whitespace: tab, line feed, carriage return, space. -/
def isWs (c : Nat) : Bool := c = 9 || c = 10 || c = 13 || c = 32

/-- Drop leading JSON whitespace. -/
def skipWs : JSString → JSString
  | [] => []
  | c :: cs => if isWs c then skipWs cs else c :: cs

mutual
/-- One JSON value at the head of the input, after optional whitespace; `fuel` bounds the
number of values and members read. -/
def parseValue : Nat → JSString → Option (Val × JSString)
  | 0, _ => none
  | fuel + 1, cs =>
    match skipWs cs with
    | [] => none
    | c :: r =>
      if c = 34 then (parseChars r.length r).map (fun p => (Val.str p.1, p.2))
      else if c = 91 then
        match skipWs r with
        | [] => none
        | d :: r1 => if d = 93 then some (.arr [], r1) else parseElems fuel (d :: r1) []
      else if c = 123 then
        match skipWs r with
        | [] => none
        | d :: r1 => if d = 125 then some (.obj [], r1) else parseMembers fuel (d :: r1) []
      else if c = 110 then
        match r with
        | 117 :: 108 :: 108 :: r1 => some (.null, r1)
        | _ => none
      else if c = 116 then
        match r with
        | 114 :: 117 :: 101 :: r1 => some (.bool true, r1)
        | _ => none
      else if c = 102 then
        match r with
        | 97 :: 108 :: 115 :: 101 :: r1 => some (.bool false, r1)
        | _ => none
      else (parseNumber (c :: r)).map (fun p => (Val.num p.1, p.2))
/-- The elements of a JSON array after `[`, up to and including `]`. -/
def parseElems : Nat → JSString → List Val → Option (Val × JSString)
  | 0, _, _ => none
  | fuel + 1, cs, acc =>
    match parseValue fuel cs with
    | none => none
    | some (v, r) =>
      match skipWs r with
      | [] => none
      | c :: r1 =>
        if c = 44 then parseElems fuel r1 (acc ++ [v])
        else if c = 93 then some (.arr (acc ++ [v]), r1)
        else none
/-- The members of a JSON object after `{`, up to and including `}`. A repeated key
overwrites the earlier value. -/
def parseMembers : Nat → JSString → Props → Option (Val × JSString)
  | 0, _, _ => none
  | fuel + 1, cs, acc =>
    match skipWs cs with
    | [] => none
    | q :: r =>
      if q = 34 then
        match parseChars r.length r with
        | none => none
        | some (k, r1) =>
          match skipWs r1 with
          | [] => none
          | c :: r2 =>
            if c = 58 then
              match parseValue fuel r2 with
              | none => none
              | some (v, r3) =>
                match skipWs r3 with
                | [] => none
                | d :: r4 =>
                  if d = 44 then parseMembers fuel r4 (setProp acc k v)
                  else if d = 125 then some (.obj (setProp acc k v), r4)
                  else none
            else none
      else none
end

/-- The function `JSON.parse(text)` without reviver: one JSON value surrounded by optional
whitespace, a SyntaxError otherwise. Every value and member consumes at least one
character, so `text.length + 1` is enough fuel for every text (`JSON.parse_complete`). -/
def JSON.parse (text : JSString) : Except Exn Val :=
  match parseValue (text.length + 1) text with
  | none => .error .syntaxError
  | some (v, r) => if skipWs r = [] then .ok v else .error .syntaxError

/-! ## Deciding equality of values -/

mutual
/-- Equality of values is decidable. -/
def Val.decEq : (a b : Val) → Decidable (a = b)
  | .undefined, .undefined => isTrue rfl
  | .null, .null => isTrue rfl
  | .bool a, .bool b =>
    if h : a = b then isTrue (by rw [h]) else isFalse (fun h' => h (by cases h'; rfl))
  | .num a, .num b =>
    if h : a = b then isTrue (by rw [h]) else isFalse (fun h' => h (by cases h'; rfl))
  | .str a, .str b =>
    if h : a = b then isTrue (by rw [h]) else isFalse (fun h' => h (by cases h'; rfl))
  | .arr a, .arr b =>
    match decEqList a b with
    | isTrue h => isTrue (by rw [h])
    | isFalse h => isFalse (fun h' => h (by cases h'; rfl))
  | .obj a, .obj b =>
    match decEqProps a b with
    | isTrue h => isTrue (by rw [h])
    | isFalse h => isFalse (fun h' => h (by cases h'; rfl))
  | .undefined, .null => isFalse nofun
  | .undefined, .bool _ => isFalse nofun
  | .undefined, .num _ => isFalse nofun
  | .undefined, .str _ => isFalse nofun
  | .undefined, .arr _ => isFalse nofun
  | .undefined, .obj _ => isFalse nofun
  | .null, .undefined => isFalse nofun
  | .null, .bool _ => isFalse nofun
  | .null, .num _ => isFalse nofun
  | .null, .str _ => isFalse nofun
  | .null, .arr _ => isFalse nofun
  | .null, .obj _ => isFalse nofun
  | .bool _, .undefined => isFalse nofun
  | .bool _, .null => isFalse nofun
  | .bool _, .num _ => isFalse nofun
  | .bool _, .str _ => isFalse nofun
  | .bool _, .arr _ => isFalse nofun
  | .bool _, .obj _ => isFalse nofun
  | .num _, .undefined => isFalse nofun
  | .num _, .null => isFalse nofun
  | .num _, .bool _ => isFalse nofun
  | .num _, .str _ => isFalse nofun
  | .num _, .arr _ => isFalse nofun
  | .num _, .obj _ => isFalse nofun
  | .str _, .undefined => isFalse nofun
  | .str _, .null => isFalse nofun
  | .str _, .bool _ => isFalse nofun
  | .str _, .num _ => isFalse nofun
  | .str _, .arr _ => isFalse nofun
  | .str _, .obj _ => isFalse nofun
  | .arr _, .undefined => isFalse nofun
  | .arr _, .null => isFalse nofun
  | .arr _, .bool _ => isFalse nofun
  | .arr _, .num _ => isFalse nofun
  | .arr _, .str _ => isFalse nofun
  | .arr _, .obj _ => isFalse nofun
  | .obj _, .undefined => isFalse nofun
  | .obj _, .null => isFalse nofun
  | .obj _, .bool _ => isFalse nofun
  | .obj _, .num _ => isFalse nofun
  | .obj _, .str _ => isFalse nofun
  | .obj _, .arr _ => isFalse nofun
/-- Equality of lists of values is decidable. -/
def decEqList : (a b : List Val) → Decidable (a = b)
  | [], [] => isTrue rfl
  | [], _ :: _ => isFalse nofun
  | _ :: _, [] => isFalse nofun
  | x :: xs, y :: ys =>
    match Val.decEq x y, decEqList xs ys with
    | isTrue h1, isTrue h2 => isTrue (by rw [h1, h2])
    | isFalse h1, _ => isFalse (fun h => h1 (by cases h; rfl))
    | _, isFalse h2 => isFalse (fun h => h2 (by cases h; rfl))
/-- Equality of property lists is decidable. -/
def decEqProps : (a b : Props) → Decidable (a = b)
  | [], [] => isTrue rfl
  | [], _ :: _ => isFalse nofun
  | _ :: _, [] => isFalse nofun
  | (k, x) :: xs, (l, y) :: ys =>
    if hk : k = l then
      match Val.decEq x y, decEqProps xs ys with
      | isTrue h1, isTrue h2 => isTrue (by rw [hk, h1, h2])
      | isFalse h1, _ => isFalse (fun h => h1 (by cases h; rfl))
      | _, isFalse h2 => isFalse (fun h => h2 (by cases h; rfl))
    else isFalse (fun h => hk (by cases h; rfl))
end

instance : DecidableEq Val := Val.decEq

instance {α : Type} [DecidableEq α] : DecidableEq (Except Exn α)
  | .ok a, .ok b => if h : a = b then isTrue (by rw [h]) else isFalse (fun h' => h (by cases h'; rfl))
  | .error a, .error b =>
    if h : a = b then isTrue (by rw [h]) else isFalse (fun h' => h (by cases h'; rfl))
  | .ok _, .error _ => isFalse nofun
  | .error _, .ok _ => isFalse nofun

/-! ## `localStorage`

The storage area is a list of key/value pairs with a quota. `setItem` throws when the pairs
would no longer fit; nothing else in the interface throws. -/

/-- The Web Storage area of the origin: its key/value pairs and the quota, counted in
code units of keys and values. -/
structure Storage where
  items : List (JSString × JSString)
  quota : Nat
  deriving DecidableEq, Repr

/-- Code units held by a list of items. -/
def Storage.size : List (JSString × JSString) → Nat
  | [] => 0
  | (k, v) :: rest => k.length + v.length + Storage.size rest

/-- The items after `key` is set to `value`: an existing key keeps its place. -/
def Storage.put (key value : JSString) : List (JSString × JSString) → List (JSString × JSString)
  | [] => [(key, value)]
  | (k, v) :: rest =>
    if k = key then (key, value) :: rest else (k, v) :: Storage.put key value rest

/-- The method `getItem(key)`: the stored string, `none` (JavaScript `null`) when absent. -/
def Storage.getItem (ls : Storage) (key : JSString) : Option JSString :=
  (ls.items.find? (fun kv => kv.1 = key)).map (fun kv => kv.2)

/-- The method `setItem(key, value)`: throws QuotaExceededError when the new value cannot
be stored, and then leaves the storage as it was. -/
def Storage.setItem (ls : Storage) (key value : JSString) : Except Exn Storage :=
  if Storage.size (Storage.put key value ls.items) ≤ ls.quota then
    .ok { ls with items := Storage.put key value ls.items }
  else .error .quotaExceeded

/-- The method `removeItem(key)`: nothing happens when the key is absent. -/
def Storage.removeItem (ls : Storage) (key : JSString) : Storage :=
  { ls with items := ls.items.filter (fun kv => ¬ kv.1 = key) }

/-! ## `fetch` -/

/-- The request passed to `fetch`. -/
structure Request where
  url : JSString
  method : JSString
  headers : List (JSString × JSString)
  body : JSString
  deriving DecidableEq, Repr

/-- What the component reads of a Response: `ok`, `status` and the body text (`none` when
reading the body fails). -/
structure Response where
  ok : Bool
  status : Nat
  body : Option JSString
  deriving DecidableEq, Repr

/-- The method `response.json()`: the body text parsed as JSON, or a rejection. -/
def Response.json (response : Response) : Except Exn Val :=
  match response.body with
  | none => .error .typeError
  | some text => JSON.parse text

/-- The network as the component sees it: `fetch` resolves with a Response or rejects. -/
abbrev Fetch := Request → Except Exn Response

/-! ## The component: `AuthProvider` -/

/-- Everything the component reads and writes: the two `useState` cells, `localStorage`,
and the diagnostic output of `console.error`. -/
structure World where
  user : Val
  loading : Bool
  localStorage : Storage
  console : List Exn

/-- The state at mount: `useState(null)` and `useState(true)`. -/
def mount (ls : Storage) : World :=
  { user := .null, loading := true, localStorage := ls, console := [] }

/-- The call `setUser(v)`. -/
def setUser (v : Val) (w : World) : World := { w with user := v }

/-- The call `setLoading(b)`. -/
def setLoading (b : Bool) (w : World) : World := { w with loading := b }

/-- The mount effect (lines 9-16): read `'user'` from storage, install the parsed record
when the stored string is truthy, then clear `loading`. A throw of `JSON.parse` leaves
the effect before `setLoading(false)`. -/
def bootstrap (w : World) : World × Except Exn Unit :=
  match w.localStorage.getItem (js "user") with
  | none => (setLoading false w, .ok ())
  | some storedUser =>
    if storedUser.isEmpty then (setLoading false w, .ok ())
    else
      match JSON.parse storedUser with
      | .error e => (w, .error e)
      | .ok v => (setLoading false (setUser v w), .ok ())

/-- The record built on lines 34-40 from the response body. -/
def userRecord (userData : Val) : Val :=
  .obj [(js "userid", userData.get (js "userid")),
    (js "email", userData.get (js "email")),
    (js "firstName", userData.get (js "firstName")),
    (js "lastName", userData.get (js "lastName")),
    (js "fullName", userData.get (js "fullName"))]

/-- The request of lines 20-29. -/
def loginRequest (email password : Val) : Request :=
  { url := js "http://artgallery-htya.onrender.com/user/login"
    method := js "POST"
    headers := [(js "Content-Type", js "application/json")]
    body := (JSON.stringify (.obj [(js "email", email), (js "password", password)])).getD
      (js "undefined") }

/-- The `try` block of `login` (lines 20-46): the world it leaves and its completion, a
returned boolean or a throw. -/
def loginTry (fetch : Fetch) (credentials : Val) (w : World) : World × Except Exn Bool :=
  match credentials.getProp (js "email") with
  | .error e => (w, .error e)
  | .ok email =>
    match credentials.getProp (js "password") with
    | .error e => (w, .error e)
    | .ok password =>
      match fetch (loginRequest email password) with
      | .error e => (w, .error e)
      | .ok response =>
        if response.ok && response.status == 200 then
          match response.json with
          | .error e => (w, .error e)
          | .ok userData =>
            if userData.truthy && (userData.get (js "userid")).truthy then
              let user := userRecord userData
              let w1 := setUser user w
              match w1.localStorage.setItem (js "user")
                  ((JSON.stringify user).getD (js "undefined")) with
              | .error e => (w1, .error e)
              | .ok ls => ({ w1 with localStorage := ls }, .ok true)
            else (w, .ok false)
        else (w, .ok false)

/-- The function `login(credentials)` (lines 18-51): the `try` block, with every throw
logged and turned into `false`. -/
def login (fetch : Fetch) (credentials : Val) (w : World) : World × Bool :=
  match loginTry fetch credentials w with
  | (w1, .ok b) => (w1, b)
  | (w1, .error e) => ({ w1 with console := w1.console ++ [e] }, false)

/-- The function `logout()` (lines 53-56). -/
def logout (w : World) : World × Except Exn Unit :=
  let w1 := setUser .null w
  ({ w1 with localStorage := w1.localStorage.removeItem (js "user") }, .ok ())

/-- The context value of lines 58-63. -/
structure ContextValue where
  user : Val
  login : Fetch → Val → World → World × Bool
  logout : World → World × Except Exn Unit
  loading : Bool

/-- The `value` the provider passes down. -/
def AuthProvider.value (w : World) : ContextValue :=
  { user := w.user, login := login, logout := logout, loading := w.loading }

/-- The provider renders its children only when `loading` is false (line 67). -/
def AuthProvider.rendersChildren (w : World) : Bool := !w.loading

/-- The call `useContext(AuthContext)`: the value of the enclosing provider, or the default
`null` of `createContext(null)`. -/
def useContext (provider : Option World) : Option ContextValue :=
  provider.map AuthProvider.value

/-- The hook `useAuth` (lines 72-78). -/
def useAuth (provider : Option World) : Except Exn ContextValue :=
  match useContext provider with
  | none => .error (.error "useAuth must be used within an AuthProvider")
  | some context => .ok context

/-- A page load: the component mounts on the storage left behind and its effect runs. -/
def reload (w : World) : World := (bootstrap (mount w.localStorage)).1

/-- The operations a mounted component offers. -/
inductive Op where
  | login (fetch : Fetch) (credentials : Val)
  | logout

/-- One operation on a mounted component. -/
def Op.step (w : World) : Op → World
  | .login fetch credentials => (AuthContext.login fetch credentials w).1
  | .logout => (AuthContext.logout w).1

/-- A sequence of operations on a mounted component, left to right. -/
def runOps (ops : List Op) (w : World) : World := ops.foldl Op.step w

/-- What can happen to the application: a page load, or an operation. -/
inductive Event where
  | reload
  | op (o : Op)

/-- One event. -/
def Event.step (w : World) : Event → World
  | .reload => AuthContext.reload w
  | .op o => o.step w

/-- A network that answers every request with the given response. -/
def respond (response : Response) : Fetch := fun _ => .ok response

/-- Credentials as the login form passes them. -/
def credentialsOf (email password : String) : Val :=
  .obj [(js "email", .str (js email)), (js "password", .str (js password))]

/-! ## What `JSON.parse` can return, and what `JSON.stringify` keeps -/

/-- The text after a serialised value: the end of the text, or a `,`, `]` or `}`. -/
def Delimited (rest : JSString) : Prop :=
  ∀ c r, rest = c :: r → c = 44 ∨ c = 93 ∨ c = 125

/-- A number as `JSON.parse` returns it: a zero has exponent 0, a nonzero significand has
no trailing zero and the value is inside the finite range of doubles. -/
def Number.Canonical : Number → Prop
  | .nan => True
  | .inf _ => True
  | .fin _ d e =>
    (d = 0 → e = 0) ∧ (d ≠ 0 → d % 10 ≠ 0 ∧ overflows d e = false ∧ underflows d e = false)

/-- What is left of a number after `JSON.stringify` and `JSON.parse`: a non-finite number
becomes `null`, negative zero becomes zero. -/
def Number.throughJSON : Number → Val
  | .fin neg d e => if d = 0 then .num (.fin false 0 0) else .num (.fin neg d e)
  | _ => .null

/-- Property order: `k` may come before `k'` in an object. The keys differ, array indices
come in ascending order, and no other key comes before an array index. -/
def keyBefore (k k' : JSString) : Prop :=
  k ≠ k' ∧
    match arrayIndex k, arrayIndex k' with
    | some i, some j => i < j
    | some _, none => True
    | none, some _ => False
    | none, none => True

mutual
/-- A value as `JSON.parse` returns it, or a record of such values: every number is
canonical and the own properties of every object are in property order. -/
def Val.Canonical : Val → Prop
  | .num n => n.Canonical
  | .arr xs => CanonicalElems xs
  | .obj ps => CanonicalProps ps ∧ List.Pairwise keyBefore (keysOf ps)
  | _ => True
/-- Every element is canonical. -/
def CanonicalElems : List Val → Prop
  | [] => True
  | x :: xs => x.Canonical ∧ CanonicalElems xs
/-- Every property value is canonical. -/
def CanonicalProps : Props → Prop
  | [] => True
  | (_, v) :: ps => v.Canonical ∧ CanonicalProps ps
/-- The keys of a property list, in order. -/
def keysOf : Props → List JSString
  | [] => []
  | (k, _) :: ps => k :: keysOf ps
end

mutual
/-- What is left of a value after `JSON.stringify` and `JSON.parse`: a non-finite number
becomes `null`, negative zero becomes zero, an `undefined` array element becomes `null`
and an `undefined` property is dropped; `undefined` itself stays `undefined`. -/
def Val.throughJSON : Val → Val
  | .undefined => .undefined
  | .null => .null
  | .bool b => .bool b
  | .num n => n.throughJSON
  | .str s => .str s
  | .arr xs => .arr (elemsThroughJSON xs)
  | .obj ps => .obj (propsThroughJSON ps)
/-- The elements of an array after `JSON.stringify` and `JSON.parse`. -/
def elemsThroughJSON : List Val → List Val
  | [] => []
  | x :: xs =>
    match x with
    | .undefined => .null :: elemsThroughJSON xs
    | _ => x.throughJSON :: elemsThroughJSON xs
/-- The properties of an object after `JSON.stringify` and `JSON.parse`. -/
def propsThroughJSON : Props → Props
  | [] => []
  | (k, v) :: ps =>
    match v with
    | .undefined => propsThroughJSON ps
    | _ => (k, v.throughJSON) :: propsThroughJSON ps
end

/-- The response conditions under which `login` reaches its state writes: the request
could be built and resolved, the response is ok with status 200, its body parses, and the
parsed body has a truthy `userid`. -/
def Accepted (fetch : Fetch) (credentials : Val) (userData : Val) : Prop :=
  ∃ email password response text,
    credentials.getProp (js "email") = .ok email ∧
    credentials.getProp (js "password") = .ok password ∧
    fetch (loginRequest email password) = .ok response ∧
    response.ok = true ∧ response.status = 200 ∧
    response.body = some text ∧ JSON.parse text = .ok userData ∧
    (userData.get (js "userid")).truthy = true

/-- The string `login` hands to `setItem`. -/
def persisted (userData : Val) : JSString :=
  (JSON.stringify (userRecord userData)).getD (js "undefined")

/-- A storage holding the record of user `u1`. -/
def storedU1 : Storage :=
  { items := [(js "user", js "\x7b\"userid\":\"u1\",\"email\":\"a@b.com\"\x7d")], quota := 5000000 }

/-- A storage whose `'user'` entry is not JSON. -/
def storedCorrupt : Storage :=
  { items := [(js "user", js "\x7b\"userid\":")], quota := 5000000 }

/-- The response body of the specification's login example. -/
def bodyU1 : JSString :=
  js ("\x7b\"userid\":\"u1\",\"email\":\"a@b.com\",\"firstName\":\"A\",\"lastName\":\"B\"," ++
    "\"fullName\":\"A B\"\x7d")

/-- The parsed body of the specification's login example. -/
def dataU1 : Val :=
  .obj [(js "userid", .str (js "u1")), (js "email", .str (js "a@b.com")),
    (js "firstName", .str (js "A")), (js "lastName", .str (js "B")),
    (js "fullName", .str (js "A B"))]

/-- A 200 response carrying `bodyU1`. -/
def responseU1 : Response := { ok := true, status := 200, body := some bodyU1 }

/-- An empty storage with room to write. -/
def emptyStorage : Storage := { items := [], quota := 5000000 }

/-- An empty storage that accepts no write: its quota is exhausted. -/
def fullStorage : Storage := { items := [], quota := 0 }

/-- A mounted component after its effect ran, nobody signed in. -/
def signedOut (ls : Storage) : World :=
  { user := .null, loading := false, localStorage := ls, console := [] }

/-- A storage holding a theme preference, with no room left for a user record. -/
def themeStorage : Storage := { items := [(js "theme", js "dark")], quota := 16 }

/-- The stored record of a user `u0`. -/
def recordU0 : JSString := js "\x7b\"userid\":\"u0\"\x7d"

/-- A storage holding the record of `u0` and filled to its quota. -/
def storageU0 : Storage := { items := [(js "user", recordU0)], quota := 19 }

/-- The record of `u0` as a session user. -/
def userU0 : Val := .obj [(js "userid", .str (js "u0"))]

/-- The component with `u0` signed in and rehydrated from `storageU0`. -/
def signedInU0 : World :=
  { user := userU0, loading := false, localStorage := storageU0, console := [] }

theorem Storage.find_put (key value : JSString) (items : List (JSString × JSString)) :
    ((Storage.put key value items).find? (fun kv => kv.1 = key)).map (fun kv => kv.2)
      = some value := by
  induction items with
  | nil => simp [Storage.put]
  | cons kv rest ih =>
    obtain ⟨k, v⟩ := kv
    by_cases h : k = key
    · simp [Storage.put, h]
    · simp [Storage.put, h, List.find?_cons]
      simpa using ih

theorem Storage.getItem_setItem (ls ls1 : Storage) (key value : JSString)
    (h : ls.setItem key value = .ok ls1) : ls1.getItem key = some value := by
  unfold Storage.setItem at h
  split at h
  · cases h
    exact Storage.find_put key value ls.items
  · cases h

theorem Storage.getItem_removeItem (ls : Storage) (key : JSString) :
    (ls.removeItem key).getItem key = none := by
  simp [Storage.removeItem, Storage.getItem, List.find?_eq_none]

theorem Storage.setItem_error (ls : Storage) (key value : JSString) (e : Exn)
    (h : ls.setItem key value = .error e) : e = .quotaExceeded := by
  unfold Storage.setItem at h
  split at h
  · cases h
  · cases h; rfl

/-! ## Logout (C4) -/

/-- C4: from every session state and every storage state, `logout` completes without an
error, and afterwards the session user is absent and nothing is stored under `'user'`. -/
theorem logout_clears (w : World) :
    (logout w).2 = .ok () ∧ (logout w).1.user = .null ∧
      (logout w).1.localStorage.getItem (js "user") = none :=
  ⟨rfl, rfl, Storage.getItem_removeItem _ _⟩

/-! ## The consumption interface (C8) -/

/-- C8: outside a provider `useAuth` throws the error naming the misuse; under a provider,
whatever its state, it returns the provider value, which holds the current user, `login`,
`logout` and the loading flag. -/
theorem useAuth_spec :
    useAuth none = .error (.error "useAuth must be used within an AuthProvider") ∧
      ∀ w : World, useAuth (some w) = .ok (AuthProvider.value w) ∧
        (AuthProvider.value w).user = w.user ∧ (AuthProvider.value w).loading = w.loading ∧
        (AuthProvider.value w).login = login ∧ (AuthProvider.value w).logout = logout :=
  ⟨rfl, fun _ => ⟨rfl, rfl, rfl, rfl, rfl⟩⟩

/-! ## The loading flag (C9) -/

theorem truthy_of_userid (userData : Val) (h : (userData.get (js "userid")).truthy = true) :
    userData.truthy = true := by
  cases userData <;> simp_all [Val.get, Val.getProp, Val.truthy]

/-- Every run of the `try` block: it stops before the state writes and leaves the world
untouched, or the response was accepted and it wrote the session user and then either
failed in `setItem` or stored the record and returned `true`. -/
theorem loginTry_cases (fetch : Fetch) (credentials : Val) (w : World) :
    ((∃ r, loginTry fetch credentials w = (w, r) ∧ r ≠ .ok true) ∧
        ¬ ∃ userData, Accepted fetch credentials userData) ∨
      ∃ userData, Accepted fetch credentials userData ∧
        ((∃ e, w.localStorage.setItem (js "user") (persisted userData) = .error e ∧
            loginTry fetch credentials w = (setUser (userRecord userData) w, .error e)) ∨
          ∃ ls, w.localStorage.setItem (js "user") (persisted userData) = .ok ls ∧
            loginTry fetch credentials w
              = ({ setUser (userRecord userData) w with localStorage := ls }, .ok true)) := by
  unfold Accepted
  cases h1 : credentials.getProp (js "email") with
  | error e => left; simp [loginTry, h1]
  | ok email =>
    cases h2 : credentials.getProp (js "password") with
    | error e => left; simp [loginTry, h1, h2]
    | ok password =>
      cases h3 : fetch (loginRequest email password) with
      | error e => left; simp [loginTry, h1, h2, h3]
      | ok response =>
        by_cases h4 : response.ok = true ∧ response.status = 200
        · cases h5 : response.json with
          | error e =>
            left
            refine ⟨⟨.error e, by simp [loginTry, h1, h2, h3, h4, h5], by simp⟩, ?_⟩
            rintro ⟨userData, _, _, r, text, he, hp, hf, _, _, hb, hj, _⟩
            cases he; cases hp; rw [h3] at hf; cases hf
            simp [Response.json, hb, hj] at h5
          | ok userData =>
            by_cases h6 : (userData.get (js "userid")).truthy = true
            · right
              have h7 := truthy_of_userid userData h6
              obtain ⟨text, hb, hj⟩ : ∃ text, response.body = some text ∧
                  JSON.parse text = .ok userData := by
                unfold Response.json at h5
                split at h5
                · cases h5
                · exact ⟨_, ‹_›, h5⟩
              refine ⟨userData, ⟨email, password, response, text, rfl, rfl, h3, h4.1, h4.2,
                hb, hj, h6⟩, ?_⟩
              cases h8 : w.localStorage.setItem (js "user") (persisted userData) with
              | error e =>
                left
                refine ⟨e, rfl, ?_⟩
                simp only [persisted, setUser] at h8
                simp [loginTry, h1, h2, h3, h4, h5, h6, h7, h8, setUser]
              | ok ls =>
                right
                refine ⟨ls, rfl, ?_⟩
                simp only [persisted, setUser] at h8
                simp [loginTry, h1, h2, h3, h4, h5, h6, h7, h8, setUser]
            · left
              refine ⟨⟨.ok false, by simp [loginTry, h1, h2, h3, h4, h5, h6], by simp⟩, ?_⟩
              rintro ⟨userData', _, _, r, text, he, hp, hf, _, _, hb, hj, ht⟩
              cases he; cases hp; rw [h3] at hf; cases hf
              simp [Response.json, hb, hj] at h5
              rw [h5] at ht
              exact h6 ht
        · left
          refine ⟨⟨.ok false, by simp [loginTry, h1, h2, h3, h4], by simp⟩, ?_⟩
          rintro ⟨userData', _, _, r, text, he, hp, hf, ho, hs, _⟩
          cases he; cases hp; rw [h3] at hf; cases hf
          exact h4 ⟨ho, hs⟩

theorem login_loading (fetch : Fetch) (credentials : Val) (w : World) :
    (login fetch credentials w).1.loading = w.loading := by
  rcases loginTry_cases fetch credentials w with ⟨⟨r, h, _⟩, _⟩ | ⟨u, _, ⟨e, _, h⟩ | ⟨ls, _, h⟩⟩
  · cases r <;> simp [login, h]
  · simp [login, h, setUser]
  · simp [login, h, setUser]

theorem Op.step_loading (o : Op) (w : World) : (o.step w).loading = w.loading := by
  cases o with
  | login fetch credentials => exact login_loading fetch credentials w
  | logout => rfl

/-- C9: the loading flag is true at mount, and `login` and `logout` never change it: after
every sequence of logins (whatever the network answers) and logouts it is what it was, so
once false it stays false. -/
theorem loading_stable :
    (∀ ls : Storage, (mount ls).loading = true) ∧
      (∀ (fetch : Fetch) (credentials : Val) (w : World),
        (login fetch credentials w).1.loading = w.loading) ∧
      (∀ w : World, (logout w).1.loading = w.loading) ∧
      ∀ (ops : List Op) (w : World), (runOps ops w).loading = w.loading := by
  refine ⟨fun _ => rfl, login_loading, fun _ => rfl, ?_⟩
  intro ops
  induction ops with
  | nil => intro w; rfl
  | cons o ops ih =>
    intro w
    show (runOps ops (o.step w)).loading = w.loading
    rw [ih, Op.step_loading]

/-! ## Bootstrap (C5, C6) -/

theorem JSON.parse_nonempty (text : JSString) (v : Val) (h : JSON.parse text = .ok v) :
    text.isEmpty = false := by
  cases text with
  | nil => simp [JSON.parse, parseValue, skipWs] at h
  | cons c r => rfl

/-- The mount effect on a stored string that parses: the parsed value is installed and
loading is cleared. -/
theorem bootstrap_of_parse (ls : Storage) (text : JSString) (v : Val)
    (hg : ls.getItem (js "user") = some text) (hp : JSON.parse text = .ok v) :
    bootstrap (mount ls)
      = ({ user := v, loading := false, localStorage := ls, console := [] }, .ok ()) := by
  have hne := JSON.parse_nonempty text v hp
  simp [bootstrap, mount, hg, hp, hne, setUser, setLoading]

/-- The mount effect when nothing usable is stored, no entry or the empty string: the user
stays absent and loading is cleared. -/
theorem bootstrap_of_absent (ls : Storage)
    (hg : ls.getItem (js "user") = none ∨ ls.getItem (js "user") = some []) :
    bootstrap (mount ls)
      = ({ user := .null, loading := false, localStorage := ls, console := [] }, .ok ()) := by
  rcases hg with hg | hg <;> simp [bootstrap, mount, hg, setLoading]

/-- The mount effect on a stored string that does not parse: the SyntaxError leaves the
effect, nothing is written and loading is still true. -/
theorem bootstrap_of_corrupt (ls : Storage) (text : JSString) (e : Exn)
    (hg : ls.getItem (js "user") = some text) (hne : text ≠ [])
    (hp : JSON.parse text = .error e) :
    bootstrap (mount ls) = (mount ls, .error e) := by
  have : text.isEmpty = false := by cases text <;> simp_all
  simp [bootstrap, mount, hg, hp, this]

/-- C5: from the state at mount, when storage holds text under `'user'` that parses as
JSON, the mount effect completes with the session user equal to the parsed value and
loading false; when storage holds nothing under `'user'`, it completes with the user
absent and loading false. Storage is left as it was in both cases. -/
theorem bootstrap_rehydrates (ls : Storage) :
    (∀ text v, ls.getItem (js "user") = some text → JSON.parse text = .ok v →
        (bootstrap (mount ls)).2 = .ok () ∧ (bootstrap (mount ls)).1.user = v ∧
          (bootstrap (mount ls)).1.loading = false ∧
          (bootstrap (mount ls)).1.localStorage = ls) ∧
      (ls.getItem (js "user") = none →
        (bootstrap (mount ls)).2 = .ok () ∧ (bootstrap (mount ls)).1.user = .null ∧
          (bootstrap (mount ls)).1.loading = false ∧
          (bootstrap (mount ls)).1.localStorage = ls) := by
  constructor
  · intro text v hg hp
    rw [bootstrap_of_parse ls text v hg hp]
    exact ⟨rfl, rfl, rfl, rfl⟩
  · intro hg
    rw [bootstrap_of_absent ls (Or.inl hg)]
    exact ⟨rfl, rfl, rfl, rfl⟩

/-- Witness for C5: a stored record is rehydrated, an empty storage leaves the user
absent. -/
theorem bootstrap_rehydrates_witness :
    ((bootstrap (mount storedU1)).2 = .ok () ∧
        (bootstrap (mount storedU1)).1.user
          = .obj [(js "userid", .str (js "u1")), (js "email", .str (js "a@b.com"))] ∧
        (bootstrap (mount storedU1)).1.loading = false ∧
        (bootstrap (mount storedU1)).1.localStorage = storedU1) ∧
      ((bootstrap (mount ⟨[], 5000000⟩)).2 = .ok () ∧
        (bootstrap (mount ⟨[], 5000000⟩)).1.user = .null ∧
        (bootstrap (mount ⟨[], 5000000⟩)).1.loading = false ∧
        (bootstrap (mount ⟨[], 5000000⟩)).1.localStorage = ⟨[], 5000000⟩) :=
  ⟨(bootstrap_rehydrates storedU1).1 (js "\x7b\"userid\":\"u1\",\"email\":\"a@b.com\"\x7d")
      (.obj [(js "userid", .str (js "u1")), (js "email", .str (js "a@b.com"))])
      (by decide!) (by decide!),
    (bootstrap_rehydrates ⟨[], 5000000⟩).2 (by decide!)⟩

/-- C6, at the failing input: with text under `'user'` that is not JSON, the mount effect
ends in the SyntaxError of `JSON.parse` and loading is still true. -/
theorem bootstrap_corrupt_keeps_loading :
    (bootstrap (mount storedCorrupt)).2 = .error .syntaxError ∧
      (bootstrap (mount storedCorrupt)).1.loading = true := by
  decide!

/-! ## Login (C1, C2, C3) -/

theorem Accepted.unique {fetch : Fetch} {credentials u1 u2 : Val}
    (h1 : Accepted fetch credentials u1) (h2 : Accepted fetch credentials u2) : u1 = u2 := by
  obtain ⟨e1, p1, r1, t1, he1, hp1, hf1, _, _, hb1, hj1, _⟩ := h1
  obtain ⟨e2, p2, r2, t2, he2, hp2, hf2, _, _, hb2, hj2, _⟩ := h2
  rw [he1] at he2; cases he2
  rw [hp1] at hp2; cases hp2
  rw [hf1] at hf2; cases hf2
  rw [hb1] at hb2; cases hb2
  rw [hj1] at hj2; cases hj2
  rfl

theorem stringify_userRecord (userData : Val) :
    JSON.stringify (userRecord userData) = some (persisted userData) := by
  simp [persisted, JSON.stringify, userRecord, serialize]

/-- What `login` does when the response is accepted and storage takes the write. -/
theorem login_of_accepted (fetch : Fetch) (credentials : Val) (w : World) (userData : Val)
    (ls : Storage) (ha : Accepted fetch credentials userData)
    (hs : w.localStorage.setItem (js "user") (persisted userData) = .ok ls) :
    login fetch credentials w
      = ({ setUser (userRecord userData) w with localStorage := ls }, true) := by
  rcases loginTry_cases fetch credentials w with ⟨_, hn⟩ | ⟨u, hu, ⟨e, he, _⟩ | ⟨ls1, hl, h⟩⟩
  · exact absurd ⟨userData, ha⟩ hn
  · cases Accepted.unique ha hu
    rw [hs] at he; cases he
  · cases Accepted.unique ha hu
    rw [hs] at hl; cases hl
    simp [login, h]

/-- What `login` does when the response is accepted and `setItem` throws. -/
theorem login_of_quota (fetch : Fetch) (credentials : Val) (w : World) (userData : Val)
    (e : Exn) (ha : Accepted fetch credentials userData)
    (hs : w.localStorage.setItem (js "user") (persisted userData) = .error e) :
    login fetch credentials w
      = ({ setUser (userRecord userData) w with console := w.console ++ [e] }, false) := by
  rcases loginTry_cases fetch credentials w with ⟨_, hn⟩ | ⟨u, hu, ⟨e1, he, h⟩ | ⟨ls1, hl, _⟩⟩
  · exact absurd ⟨userData, ha⟩ hn
  · cases Accepted.unique ha hu
    rw [hs] at he; cases he
    simp [login, h, setUser]
  · cases Accepted.unique ha hu
    rw [hs] at hl; cases hl

/-- What `login` does when the response is not accepted: only the console can change. -/
theorem login_of_not_accepted (fetch : Fetch) (credentials : Val) (w : World)
    (hn : ¬ ∃ userData, Accepted fetch credentials userData) :
    (login fetch credentials w).2 = false ∧ (login fetch credentials w).1.user = w.user ∧
      (login fetch credentials w).1.localStorage = w.localStorage ∧
      (login fetch credentials w).1.loading = w.loading := by
  rcases loginTry_cases fetch credentials w with ⟨⟨r, h, hr⟩, _⟩ | ⟨u, hu, _⟩
  · cases r with
    | error e => simp [login, h]
    | ok b =>
      cases b with
      | true => exact absurd rfl hr
      | false => simp [login, h]
  · exact absurd ⟨u, hu⟩ hn

/-- C1, as amended: when the request was sent and resolved, the response is ok with status
200, its body parses and has a truthy `userid`, and storage accepts the write, `login`
resolves `true`, the session user is the record of exactly the five fields `userid`,
`email`, `firstName`, `lastName`, `fullName` read from the body, and the string stored
under `'user'` is `JSON.stringify` of that record. -/
theorem login_success (fetch : Fetch) (credentials : Val) (w : World)
    (email password : Val) (response : Response) (text : JSString) (userData : Val)
    (ls : Storage)
    (he : credentials.getProp (js "email") = .ok email)
    (hp : credentials.getProp (js "password") = .ok password)
    (hf : fetch (loginRequest email password) = .ok response)
    (hok : response.ok = true) (hst : response.status = 200)
    (hb : response.body = some text) (hj : JSON.parse text = .ok userData)
    (hu : (userData.get (js "userid")).truthy = true)
    (hs : w.localStorage.setItem (js "user") (persisted userData) = .ok ls) :
    (login fetch credentials w).2 = true ∧
      (login fetch credentials w).1.user
        = .obj [(js "userid", userData.get (js "userid")),
            (js "email", userData.get (js "email")),
            (js "firstName", userData.get (js "firstName")),
            (js "lastName", userData.get (js "lastName")),
            (js "fullName", userData.get (js "fullName"))] ∧
      (login fetch credentials w).1.localStorage.getItem (js "user")
        = JSON.stringify (login fetch credentials w).1.user := by
  have ha : Accepted fetch credentials userData :=
    ⟨email, password, response, text, he, hp, hf, hok, hst, hb, hj, hu⟩
  rw [login_of_accepted fetch credentials w userData ls ha hs]
  refine ⟨rfl, rfl, ?_⟩
  show ls.getItem (js "user") = JSON.stringify (userRecord userData)
  rw [stringify_userRecord]
  exact Storage.getItem_setItem _ _ _ _ hs

/-- Witness for C1: the login example of the specification, on an empty storage. -/
theorem login_success_witness :
    (login (respond responseU1) (credentialsOf "a@b.com" "secret") (signedOut emptyStorage)).2
        = true ∧
      (login (respond responseU1) (credentialsOf "a@b.com" "secret")
          (signedOut emptyStorage)).1.user = dataU1 ∧
      (login (respond responseU1) (credentialsOf "a@b.com" "secret")
          (signedOut emptyStorage)).1.localStorage.getItem (js "user") = some bodyU1 := by
  have h := login_success (respond responseU1) (credentialsOf "a@b.com" "secret")
    (signedOut emptyStorage) (.str (js "a@b.com")) (.str (js "secret")) responseU1 bodyU1
    dataU1 ⟨[(js "user", bodyU1)], 5000000⟩ (by decide!) (by decide!) rfl rfl rfl rfl
    (by decide!) (by decide!) (by decide!)
  refine ⟨h.1, h.2.1.trans (by decide!), h.2.2.trans ?_⟩
  rw [h.2.1]
  decide!

/-- C1 as stated fails: the specification's accepted response, on a storage that refuses
the write, makes `login` resolve `false` and stores nothing. -/
theorem login_accepted_not_true :
    (respond responseU1) (loginRequest (.str (js "a@b.com")) (.str (js "secret")))
        = .ok responseU1 ∧
      responseU1.ok = true ∧ responseU1.status = 200 ∧
      responseU1.json = .ok dataU1 ∧ (dataU1.get (js "userid")).truthy = true ∧
      (login (respond responseU1) (credentialsOf "a@b.com" "secret")
          (signedOut fullStorage)).2 = false ∧
      (login (respond responseU1) (credentialsOf "a@b.com" "secret")
          (signedOut fullStorage)).1.localStorage.getItem (js "user") = none := by
  decide!

/-- A login that resolves `true` had an accepted response and a storage that took the
record. -/
theorem login_true_accepted (fetch : Fetch) (credentials : Val) (w : World)
    (h : (login fetch credentials w).2 = true) :
    ∃ userData ls, Accepted fetch credentials userData ∧
      w.localStorage.setItem (js "user") (persisted userData) = .ok ls := by
  rcases loginTry_cases fetch credentials w with ⟨_, hn⟩ | ⟨u, hu, ⟨e, he, _⟩ | ⟨ls, hl, _⟩⟩
  · rw [(login_of_not_accepted fetch credentials w hn).1] at h
    cases h
  · rw [login_of_quota fetch credentials w u e hu he] at h
    cases h
  · exact ⟨u, ls, hu, hl⟩

/-- C2, as amended: `login` always resolves with a boolean, and it resolves `true` exactly
when the request was sent and resolved, the response is ok with status 200, its body
parses, the parsed body has a truthy `userid`, and storage accepts the record; in every
other case it resolves `false`. -/
theorem login_true_iff (fetch : Fetch) (credentials : Val) (w : World) :
    (login fetch credentials w).2 = true ↔
      ∃ email password response text userData,
        credentials.getProp (js "email") = .ok email ∧
        credentials.getProp (js "password") = .ok password ∧
        fetch (loginRequest email password) = .ok response ∧
        response.ok = true ∧ response.status = 200 ∧
        response.body = some text ∧ JSON.parse text = .ok userData ∧
        (userData.get (js "userid")).truthy = true ∧
        ∃ ls, w.localStorage.setItem (js "user") (persisted userData) = .ok ls := by
  constructor
  · intro h
    obtain ⟨u, ls, hu, hl⟩ := login_true_accepted fetch credentials w h
    obtain ⟨email, password, response, text, h1, h2, h3, h4, h5, h6, h7, h8⟩ := hu
    exact ⟨email, password, response, text, u, h1, h2, h3, h4, h5, h6, h7, h8, ls, hl⟩
  · rintro ⟨email, password, response, text, u, h1, h2, h3, h4, h5, h6, h7, h8, ls, hl⟩
    rw [login_of_accepted fetch credentials w u ls
      ⟨email, password, response, text, h1, h2, h3, h4, h5, h6, h7, h8⟩ hl]

/-- C2 as stated fails: the request succeeds, the response is ok with status 200, its body
parses and has a truthy `userid`, yet `login` resolves `false` because the storage has no
room for the record. -/
theorem login_not_decided_by_response :
    (respond responseU1) (loginRequest (.str (js "x@y.org")) (.str (js "pw")))
        = .ok responseU1 ∧
      responseU1.ok = true ∧ responseU1.status = 200 ∧
      responseU1.body = some bodyU1 ∧ JSON.parse bodyU1 = .ok dataU1 ∧
      (dataU1.get (js "userid")).truthy = true ∧
      (login (respond responseU1) (credentialsOf "x@y.org" "pw") (signedOut themeStorage)).2
        = false := by
  decide!

/-- C3, at the failing input: `u0` is signed in and stored, the storage is at its quota,
and a login answered with the record of `u1` resolves `false`; the storage still holds the
record of `u0`, but the session user has become the record of `u1`. -/
theorem login_false_changes_user :
    (login (respond responseU1) (credentialsOf "a@b.com" "secret") signedInU0).2 = false ∧
      signedInU0.user = userU0 ∧
      (login (respond responseU1) (credentialsOf "a@b.com" "secret") signedInU0).1.user
        = dataU1 ∧
      (login (respond responseU1) (credentialsOf "a@b.com" "secret")
        signedInU0).1.localStorage.getItem (js "user") = some recordU0 := by
  decide!

/-- A failed login whose failure is decided by the request or the response (rejection,
status, body, `userid`) leaves the session user and the storage as they were. -/
theorem login_false_atomic (fetch : Fetch) (credentials : Val) (w : World)
    (h : (login fetch credentials w).2 = false)
    (hq : ∀ userData, w.localStorage.setItem (js "user") (persisted userData)
      ≠ .error .quotaExceeded) :
    (login fetch credentials w).1.user = w.user ∧
      (login fetch credentials w).1.localStorage = w.localStorage := by
  rcases loginTry_cases fetch credentials w with ⟨_, hn⟩ | ⟨u, hu, ⟨e, he, _⟩ | ⟨ls, hl, _⟩⟩
  · exact ⟨(login_of_not_accepted fetch credentials w hn).2.1,
      (login_of_not_accepted fetch credentials w hn).2.2.1⟩
  · have := Storage.setItem_error _ _ _ _ he
    subst this
    exact absurd he (hq u)
  · rw [login_of_accepted fetch credentials w u ls hu hl] at h
    cases h

/-! ## Provenance of the session user (C7) -/

theorem decimalAux_eq (fuel : Nat) : ∀ (n : Nat) (acc : JSString), n ≤ fuel → 0 < n →
    decimalAux fuel n acc = ((Nat.digits 10 n).reverse.map (· + 48)) ++ acc := by
  induction fuel with
  | zero => intro n acc h h0; omega
  | succ f ih =>
    intro n acc h h0
    unfold decimalAux
    by_cases hn : n < 10
    · rw [if_pos hn, Nat.digits_of_lt 10 n (by omega) hn]
      simp
    · rw [if_neg hn, ih (n / 10) _ (by omega) (by omega)]
      conv_rhs => rw [Nat.digits_def' (by norm_num : 1 < 10) h0]
      simp

theorem decimal_pos (n : Nat) (h : 0 < n) :
    decimal n = (Nat.digits 10 n).reverse.map (· + 48) := by
  unfold decimal
  rw [decimalAux_eq n n [] (le_refl n) h]
  simp

theorem decimal_zero : decimal 0 = [48] := rfl

theorem foldl_digitStep_map (l : List Nat) : ∀ acc : Nat,
    (l.map (· + 48)).foldl digitStep acc
      = acc * 10 ^ l.length + Nat.ofDigits 10 l.reverse := by
  induction l with
  | nil =>
    intro acc
    show acc = acc * 10 ^ 0 + Nat.ofDigits 10 []
    rw [pow_zero, mul_one, Nat.ofDigits_nil, add_zero]
  | cons d l ih =>
    intro acc
    rw [List.map_cons, List.foldl_cons, ih, digitStep, Nat.add_sub_cancel, List.reverse_cons,
      Nat.ofDigits_append, Nat.ofDigits_singleton, List.length_reverse, List.length_cons]
    ring

theorem ofDigits_decimal (n : Nat) : ofDigits (decimal n) = n := by
  rcases Nat.eq_zero_or_pos n with h | h
  · subst h; rfl
  · rw [decimal_pos n h, ofDigits, foldl_digitStep_map]
    simp [Nat.ofDigits_digits]

theorem foldl_digitStep_zeros (j : Nat) : ∀ acc : Nat,
    (List.replicate j 48).foldl digitStep acc = acc * 10 ^ j := by
  induction j with
  | zero => intro acc; simp
  | succ j ih =>
    intro acc
    rw [List.replicate_succ, List.foldl_cons, ih, digitStep]
    ring

theorem ofDigits_append_zeros (ds : JSString) (j : Nat) :
    ofDigits (ds ++ List.replicate j 48) = ofDigits ds * 10 ^ j := by
  rw [ofDigits, List.foldl_append, foldl_digitStep_zeros]; rfl

theorem ofDigits_zeros_append (ds : JSString) (j : Nat) :
    ofDigits (List.replicate j 48 ++ ds) = ofDigits ds := by
  rw [ofDigits, List.foldl_append, foldl_digitStep_zeros]; simp [ofDigits]

theorem decimal_all_digits (n : Nat) : ∀ c ∈ decimal n, isDigit c = true := by
  rcases Nat.eq_zero_or_pos n with h | h
  · subst h; intro c hc; simp [decimal_zero] at hc; subst hc; rfl
  · rw [decimal_pos n h]
    intro c hc
    simp only [List.mem_map, List.mem_reverse] at hc
    obtain ⟨d, hd, rfl⟩ := hc
    have := Nat.digits_lt_base (by norm_num : 1 < 10) hd
    simp [isDigit]; omega

theorem decimal_ne_nil (n : Nat) : decimal n ≠ [] := by
  rcases Nat.eq_zero_or_pos n with h | h
  · subst h; simp [decimal_zero]
  · rw [decimal_pos n h]
    simp [Nat.digits_ne_nil_iff_ne_zero]; omega

/-- The numeral of a positive number starts with a nonzero digit. -/
theorem decimal_head (n : Nat) (h : 0 < n) :
    ∃ c r, decimal n = c :: r ∧ c ≠ 48 ∧ isDigit c = true := by
  have hne : Nat.digits 10 n ≠ [] := Nat.digits_ne_nil_iff_ne_zero.mpr (by omega)
  have hlast := Nat.getLast_digit_ne_zero 10 (by omega : n ≠ 0)
  rw [decimal_pos n h]
  obtain ⟨l, d, hl⟩ : ∃ l d, Nat.digits 10 n = l ++ [d] :=
    ⟨_, _, (List.dropLast_append_getLast hne).symm⟩
  have hd : d ≠ 0 := by
    have : (Nat.digits 10 n).getLast hne = d := by simp [hl]
    rw [← this]; exact hlast
  have hlt : d < 10 := Nat.digits_lt_base (by norm_num : 1 < 10) (by rw [hl]; simp)
  refine ⟨d + 48, l.reverse.map (· + 48), by rw [hl]; simp, by omega, ?_⟩
  simp [isDigit]; omega

theorem takeDigits_append (ds rest : JSString) (hd : ∀ c ∈ ds, isDigit c = true)
    (hr : ∀ c r, rest = c :: r → isDigit c = false) :
    takeDigits (ds ++ rest) = (ds, rest) := by
  induction ds with
  | nil =>
    cases rest with
    | nil => rfl
    | cons c r => simp [takeDigits, hr c r rfl]
  | cons c ds ih =>
    have hc := hd c (by simp)
    have := ih (fun x hx => hd x (by simp [hx]))
    simp [takeDigits, hc, this]

theorem stripZeros_pow (s : Nat) (hs : s % 10 ≠ 0) : ∀ (j fuel : Nat) (e : Int), j < fuel →
    stripZeros fuel (s * 10 ^ j) e = (s, e + j) := by
  intro j
  induction j with
  | zero =>
    intro fuel e hf
    obtain ⟨f, rfl⟩ : ∃ f, fuel = f + 1 := ⟨fuel - 1, by omega⟩
    simp [stripZeros, hs]
  | succ j ih =>
    intro fuel e hf
    obtain ⟨f, rfl⟩ : ∃ f, fuel = f + 1 := ⟨fuel - 1, by omega⟩
    have h1 : s * 10 ^ (j + 1) % 10 = 0 := by
      rw [pow_succ, ← mul_assoc]; simp
    have h2 : s * 10 ^ (j + 1) / 10 = s * 10 ^ j := by
      rw [pow_succ, ← mul_assoc]; simp
    unfold stripZeros
    rw [if_pos h1, h2, ih f (e + 1) (by omega)]
    simp; ring

/-! ## The number token reads back `Number::toString` -/

theorem Delimited.not_digit {rest : JSString} (h : Delimited rest) :
    ∀ c r, rest = c :: r → isDigit c = false := by
  intro c r hr
  rcases h c r hr with h | h | h <;> subst h <;> rfl

theorem parseInt_digits (c : Nat) (tl rest : JSString) (hc : c ≠ 48) (hd : isDigit c = true)
    (htl : ∀ x ∈ tl, isDigit x = true) (hr : ∀ x r, rest = x :: r → isDigit x = false) :
    parseInt (c :: (tl ++ rest)) = some (c :: tl, rest) := by
  simp [parseInt, hc, hd, takeDigits_append tl rest htl hr]

theorem parseFrac_dot (fd rest : JSString) (hne : fd ≠ [])
    (hfd : ∀ x ∈ fd, isDigit x = true) (hr : ∀ x r, rest = x :: r → isDigit x = false) :
    parseFrac (46 :: (fd ++ rest)) = some (fd, rest) := by
  simp [parseFrac, takeDigits_append fd rest hfd hr, hne]

theorem parseFrac_none (rest : JSString) (h : ∀ r, rest ≠ 46 :: r) :
    parseFrac rest = some ([], rest) := by
  unfold parseFrac
  split
  · exact absurd rfl (h _)
  · rfl

theorem parseExp_none (rest : JSString) (h : ∀ c r, rest = c :: r → c ≠ 101 ∧ c ≠ 69) :
    parseExp rest = some (0, rest) := by
  cases rest with
  | nil => rfl
  | cons c r =>
    have := h c r rfl
    simp [parseExp, this.1, this.2]

theorem parseExpDigits_decimal (neg : Bool) (x : Nat) (rest : JSString)
    (hr : ∀ c r, rest = c :: r → isDigit c = false) :
    parseExpDigits neg (decimal x ++ rest)
      = some (if neg then -(x : Int) else (x : Int), rest) := by
  simp [parseExpDigits, takeDigits_append (decimal x) rest (decimal_all_digits x) hr,
    decimal_ne_nil, ofDigits_decimal]

theorem parseExp_plus (x : Nat) (rest : JSString)
    (hr : ∀ c r, rest = c :: r → isDigit c = false) :
    parseExp (101 :: 43 :: (decimal x ++ rest)) = some ((x : Int), rest) := by
  simp [parseExp, parseExpDigits_decimal false x rest hr]

theorem parseExp_minus (x : Nat) (rest : JSString)
    (hr : ∀ c r, rest = c :: r → isDigit c = false) :
    parseExp (101 :: 45 :: (decimal x ++ rest)) = some (-(x : Int), rest) := by
  simp [parseExp, parseExpDigits_decimal true x rest hr]

theorem mkNumber_canonical (neg : Bool) (d : Nat) (e : Int) (j : Nat)
    (hc : (Number.fin neg d e).Canonical) (hd : d ≠ 0) :
    mkNumber neg (d * 10 ^ j) (e - j) = .fin neg d e := by
  obtain ⟨h10, ho, hu⟩ := hc.2 hd
  have hpos : 0 < d * 10 ^ j := Nat.mul_pos (by omega) (by positivity)
  have hj : j < d * 10 ^ j := by
    calc j < 10 ^ j := Nat.lt_pow_self (by norm_num) j
      _ ≤ d * 10 ^ j := Nat.le_mul_of_pos_left _ (by omega)
  unfold mkNumber
  rw [if_neg (by omega), stripZeros_pow d h10 j _ _ hj]
  simp [ho, hu]

theorem parseUnsigned_of_parts (neg : Bool) (cs ip r1 fp r2 r3 : JSString) (ex : Int)
    (h1 : parseInt cs = some (ip, r1)) (h2 : parseFrac r1 = some (fp, r2))
    (h3 : parseExp r2 = some (ex, r3)) :
    parseUnsigned neg cs = some (mkNumber neg (ofDigits (ip ++ fp)) (ex - fp.length), r3) := by
  simp [parseUnsigned, h1, h2, h3]

theorem parseUnsigned_exp_one (neg : Bool) (c0 : Nat) (rest : JSString) (sign x : Nat)
    (ex : Int) (hc0 : c0 ≠ 48) (hdig : isDigit c0 = true)
    (hexp : parseExp (101 :: sign :: (decimal x ++ rest)) = some (ex, rest)) :
    parseUnsigned neg (c0 :: 101 :: sign :: (decimal x ++ rest))
      = some (mkNumber neg (ofDigits [c0]) ex, rest) := by
  have hp := parseUnsigned_of_parts neg _ [c0] _ [] _ rest _
    (parseInt_digits c0 [] _ hc0 hdig (by simp) (by intro y r h; cases h; rfl))
    (parseFrac_none _ (by intro r h; cases h)) hexp
  simp only [List.cons_append, List.append_assoc, List.nil_append] at hp ⊢
  rw [hp]; simp

theorem parseUnsigned_exp_many (neg : Bool) (c0 t0 : Nat) (tl rest : JSString) (sign x : Nat)
    (ex : Int) (hc0 : c0 ≠ 48) (hdig : isDigit c0 = true)
    (hall : ∀ y ∈ t0 :: tl, isDigit y = true)
    (hexp : parseExp (101 :: sign :: (decimal x ++ rest)) = some (ex, rest)) :
    parseUnsigned neg (c0 :: 46 :: t0 :: (tl ++ 101 :: sign :: (decimal x ++ rest)))
      = some (mkNumber neg (ofDigits (c0 :: t0 :: tl)) (ex - (tl.length + 1 : Nat)), rest) := by
  have hp := parseUnsigned_of_parts neg _ [c0] _ (t0 :: tl) _ rest _
    (parseInt_digits c0 [] _ hc0 hdig (by simp) (by intro y r h; cases h; rfl))
    (parseFrac_dot (t0 :: tl) _ (by simp) hall (by intro y r h; cases h; rfl))
    hexp
  simp only [List.cons_append, List.append_assoc, List.nil_append] at hp ⊢
  rw [hp]; simp

theorem parseUnsigned_toJSString (neg : Bool) (d : Nat) (e : Int) (rest : JSString)
    (hc : (Number.fin neg d e).Canonical) (hd : d ≠ 0) (hr : Delimited rest) :
    parseUnsigned neg (unsignedToJSString d e ++ rest) = some (.fin neg d e, rest) := by
  obtain ⟨c0, tl, hds, hc0, hdig⟩ := decimal_head d (by omega)
  have hall : ∀ x ∈ tl, isDigit x = true := fun x hx =>
    decimal_all_digits d x (by rw [hds]; simp [hx])
  have hval : ofDigits (c0 :: tl) = d := by rw [← hds]; exact ofDigits_decimal d
  have hnd := hr.not_digit
  have hn46 : ∀ r, rest ≠ 46 :: r := by
    intro r h; rcases hr 46 r h with h | h | h <;> cases h
  have hne : ∀ c r, rest = c :: r → c ≠ 101 ∧ c ≠ 69 := by
    intro c r h; rcases hr c r h with h | h | h <;> subst h <;> decide
  have fin_of : ∀ (m : Nat) (x : Int) (j : Nat), m = d * 10 ^ j → x = e - j →
      mkNumber neg m x = .fin neg d e := by
    intro m x j hm hx; rw [hm, hx]; exact mkNumber_canonical neg d e j hc hd
  unfold unsignedToJSString
  simp only [hds, List.length_cons, Nat.cast_add, Nat.cast_one]
  split_ifs with h1 h2 h3 h4
  · -- digits followed by zeros
    have he : e = ((e + ((tl.length : Int) + 1) - ((tl.length : Int) + 1)).toNat : Int) := by
      omega
    generalize (e + ((tl.length : Int) + 1) - ((tl.length : Int) + 1)).toNat = j at he
    have hp := parseUnsigned_of_parts neg (c0 :: ((tl ++ List.replicate j 48) ++ rest))
      (c0 :: (tl ++ List.replicate j 48)) rest [] rest rest 0
      (parseInt_digits c0 _ rest hc0 hdig
        (by intro x hx; rcases List.mem_append.mp hx with h | h
            · exact hall x h
            · rw [List.eq_of_mem_replicate h]; rfl) hnd)
      (parseFrac_none rest hn46) (parseExp_none rest hne)
    simp only [List.cons_append, List.append_assoc] at hp ⊢
    rw [hp]
    congr 2
    apply fin_of _ _ j
    · rw [List.append_nil, ← List.cons_append, ofDigits_append_zeros, hval]
    · simp; omega
  · -- digits with a decimal point inside
    obtain ⟨m, hm⟩ : ∃ m : Nat, (e + ((tl.length : Int) + 1)).toNat = m + 1 :=
      ⟨(e + ((tl.length : Int) + 1)).toNat - 1, by omega⟩
    have hmk : m < tl.length := by
      by_contra hcon
      exact h1 ⟨by omega, h2.2⟩
    rw [hm, List.take_succ_cons, List.drop_succ_cons]
    have hdrop : tl.drop m ≠ [] := by
      intro h; have := congrArg List.length h; simp at this; omega
    have hp := parseUnsigned_of_parts neg (c0 :: (tl.take m ++ 46 :: (tl.drop m ++ rest)))
      (c0 :: tl.take m) (46 :: (tl.drop m ++ rest)) (tl.drop m) rest rest 0
      (parseInt_digits c0 _ _ hc0 hdig (fun x hx => hall x (List.mem_of_mem_take hx))
        (by intro x r h; cases h; rfl))
      (parseFrac_dot _ rest hdrop (fun x hx => hall x (List.mem_of_mem_drop hx)) hnd)
      (parseExp_none rest hne)
    simp only [List.cons_append, List.append_assoc] at hp ⊢
    rw [hp]
    congr 2
    apply fin_of _ _ 0
    · rw [← List.cons_append, List.cons_append, List.take_append_drop, hval]; simp
    · push_cast [List.length_drop]; omega
  · -- zero, a decimal point, zeros and the digits
    generalize hj : (-(e + ((tl.length : Int) + 1))).toNat = j
    have hp := parseUnsigned_of_parts neg (48 :: 46 :: ((List.replicate j 48 ++ c0 :: tl) ++ rest))
      [48] (46 :: ((List.replicate j 48 ++ c0 :: tl) ++ rest)) (List.replicate j 48 ++ c0 :: tl)
      rest rest 0 (by simp [parseInt])
      (parseFrac_dot _ rest (by simp)
        (by intro x hx; rcases List.mem_append.mp hx with h | h
            · rw [List.eq_of_mem_replicate h]; rfl
            · rcases List.mem_cons.mp h with h | h
              · rw [h]; exact hdig
              · exact hall x h) hnd)
      (parseExp_none rest hne)
    simp only [List.cons_append, List.append_assoc] at hp ⊢
    rw [hp]
    congr 2
    apply fin_of _ _ 0
    · show ofDigits (List.replicate (j + 1) 48 ++ c0 :: tl) = d * 10 ^ 0
      rw [ofDigits_zeros_append, hval]; simp
    · simp only [List.length_append, List.length_replicate, List.length_cons]
      push_cast
      omega
  · -- exponential notation, negative exponent
    have hexp := parseExp_minus (e + ((tl.length : Int) + 1) - 1).natAbs rest hnd
    cases tl with
    | nil =>
      simp only [List.cons_append, List.append_assoc, List.nil_append]
      rw [parseUnsigned_exp_one neg c0 rest 45 _ _ hc0 hdig hexp]
      congr 2
      apply fin_of _ _ 0
      · rw [hval]; simp
      · have hx := Int.ofNat_natAbs_of_nonpos (le_of_lt h4)
        simp only [List.length_cons, List.length_nil, Nat.cast_add, Nat.cast_one,
          Nat.cast_zero] at hx ⊢
        omega
    | cons t0 tl' =>
      simp only [List.cons_append, List.append_assoc, List.nil_append]
      rw [parseUnsigned_exp_many neg c0 t0 tl' rest 45 _ _ hc0 hdig hall hexp]
      congr 2
      apply fin_of _ _ 0
      · rw [hval]; simp
      · have hx := Int.ofNat_natAbs_of_nonpos (le_of_lt h4)
        simp only [List.length_cons, List.length_nil, Nat.cast_add, Nat.cast_one,
          Nat.cast_zero] at hx ⊢
        omega
  · -- exponential notation, nonnegative exponent
    have hexp := parseExp_plus (e + ((tl.length : Int) + 1) - 1).natAbs rest hnd
    cases tl with
    | nil =>
      simp only [List.cons_append, List.append_assoc, List.nil_append]
      rw [parseUnsigned_exp_one neg c0 rest 43 _ _ hc0 hdig hexp]
      congr 2
      apply fin_of _ _ 0
      · rw [hval]; simp
      · have hx := Int.natAbs_of_nonneg (not_lt.mp h4)
        simp only [List.length_cons, List.length_nil, Nat.cast_add, Nat.cast_one,
          Nat.cast_zero] at hx ⊢
        omega
    | cons t0 tl' =>
      simp only [List.cons_append, List.append_assoc, List.nil_append]
      rw [parseUnsigned_exp_many neg c0 t0 tl' rest 43 _ _ hc0 hdig hall hexp]
      congr 2
      apply fin_of _ _ 0
      · rw [hval]; simp
      · have hx := Int.natAbs_of_nonneg (not_lt.mp h4)
        simp only [List.length_cons, List.length_nil, Nat.cast_add, Nat.cast_one,
          Nat.cast_zero] at hx ⊢
        omega

/-- The numeral of a positive number starts with a digit. -/
theorem unsignedToJSString_head (d : Nat) (e : Int) (hd : d ≠ 0) :
    ∃ c r, unsignedToJSString d e = c :: r ∧ isDigit c = true := by
  obtain ⟨c0, tl, hds, _, hdig⟩ := decimal_head d (by omega)
  unfold unsignedToJSString
  simp only [hds, List.length_cons, Nat.cast_add, Nat.cast_one]
  split_ifs with h1 h2 h3 h4
  · exact ⟨c0, _, rfl, hdig⟩
  · obtain ⟨m, hm⟩ : ∃ m : Nat, (e + ((tl.length : Int) + 1)).toNat = m + 1 :=
      ⟨(e + ((tl.length : Int) + 1)).toNat - 1, by omega⟩
    rw [hm, List.take_succ_cons]
    exact ⟨c0, _, rfl, hdig⟩
  · exact ⟨48, _, rfl, rfl⟩
  · cases tl <;> exact ⟨c0, _, rfl, hdig⟩
  · cases tl <;> exact ⟨c0, _, rfl, hdig⟩

theorem parseNumber_of_digit (c : Nat) (r : JSString) (h : isDigit c = true) :
    parseNumber (c :: r) = parseUnsigned false (c :: r) := by
  unfold parseNumber
  split
  · rename_i heq
    cases heq
    exact absurd h (by decide)
  · rfl

/-- The number token reads back what `Number::toString` wrote for a finite number, up to
the sign of zero. -/
theorem parseNumber_toJSString (neg : Bool) (d : Nat) (e : Int) (rest : JSString)
    (hc : (Number.fin neg d e).Canonical) (hr : Delimited rest) :
    parseNumber ((Number.fin neg d e).toJSString ++ rest)
      = some (if d = 0 then .fin false 0 0 else .fin neg d e, rest) := by
  have hn46 : ∀ r, rest ≠ 46 :: r := by
    intro r h; rcases hr 46 r h with h | h | h <;> cases h
  have hne : ∀ c r, rest = c :: r → c ≠ 101 ∧ c ≠ 69 := by
    intro c r h; rcases hr c r h with h | h | h <;> subst h <;> decide
  by_cases hd : d = 0
  · subst hd
    have hp := parseUnsigned_of_parts false (48 :: rest) [48] rest [] rest rest 0
      (by simp [parseInt]) (parseFrac_none rest hn46) (parseExp_none rest hne)
    show parseNumber (48 :: rest) = _
    rw [parseNumber_of_digit 48 rest rfl, hp]
    have h0 : ofDigits ([48] ++ []) = 0 := by decide
    rw [h0]
    simp [mkNumber]
  · rw [if_neg hd]
    cases neg with
    | true =>
      have hs : (Number.fin true d e).toJSString = 45 :: unsignedToJSString d e := by
        simp [Number.toJSString, hd]
      rw [hs]
      show parseUnsigned true (unsignedToJSString d e ++ rest) = _
      exact parseUnsigned_toJSString true d e rest hc hd hr
    | false =>
      have hs : (Number.fin false d e).toJSString = unsignedToJSString d e := by
        simp [Number.toJSString, hd]
      rw [hs]
      obtain ⟨c, r, hcr, hdig⟩ := unsignedToJSString_head d e hd
      have := parseUnsigned_toJSString false d e rest hc hd hr
      rw [hcr] at this ⊢
      rw [List.cons_append, parseNumber_of_digit c _ hdig]
      exact this

/-! ## The string token reads back `QuoteJSONString` -/

theorem hexVal_hexDigit (x : Nat) (h : x < 16) : hexVal (hexDigit x) = some x := by
  interval_cases x <;> rfl

theorem parseEscape_unicodeEscape (c : Nat) (cs : JSString) (h : c < 65536) :
    parseEscape (117 :: hexDigit (c / 4096 % 16) :: hexDigit (c / 256 % 16)
      :: hexDigit (c / 16 % 16) :: hexDigit (c % 16) :: cs) = some (c, cs) := by
  have e : c / 4096 % 16 * 4096 + c / 256 % 16 * 256 + c / 16 % 16 * 16 + c % 16 = c := by
    omega
  have h1 := hexVal_hexDigit (c / 4096 % 16) (Nat.mod_lt _ (by norm_num))
  have h2 := hexVal_hexDigit (c / 256 % 16) (Nat.mod_lt _ (by norm_num))
  have h3 := hexVal_hexDigit (c / 16 % 16) (Nat.mod_lt _ (by norm_num))
  have h4 := hexVal_hexDigit (c % 16) (Nat.mod_lt _ (by norm_num))
  simp [parseEscape, h1, h2, h3, h4, e]

theorem parseChars_backslash (fuel : Nat) (r : JSString) :
    parseChars (fuel + 1) (92 :: r)
      = match parseEscape r with
        | none => none
        | some (x, r1) => (parseChars fuel r1).map (fun p => (x :: p.1, p.2)) := by
  rw [parseChars.eq_def]
  simp

theorem parseChars_unicodeEscape (c : Nat) (cs : JSString) (fuel : Nat) (h : c < 65536) :
    parseChars (fuel + 1) (unicodeEscape c ++ cs)
      = (parseChars fuel cs).map (fun p => (c :: p.1, p.2)) := by
  show parseChars (fuel + 1) (92 :: 117 :: hexDigit (c / 4096 % 16) :: hexDigit (c / 256 % 16)
    :: hexDigit (c / 16 % 16) :: hexDigit (c % 16) :: cs) = _
  rw [parseChars_backslash, parseEscape_unicodeEscape c cs h]

theorem parseChars_plain (c : Nat) (cs : JSString) (fuel : Nat) (h1 : c ≠ 34) (h2 : c ≠ 92)
    (h3 : ¬ c < 32) :
    parseChars (fuel + 1) (c :: cs) = (parseChars fuel cs).map (fun p => (c :: p.1, p.2)) := by
  rw [parseChars.eq_def]
  simp [h1, h2, h3]

theorem parseChars_quote (fuel : Nat) (r : JSString) :
    parseChars (fuel + 1) (34 :: r) = some ([], r) := by
  rw [parseChars.eq_def]
  simp

theorem parseChars_quoteUnit (c : Nat) (cs : JSString) (fuel : Nat) :
    parseChars (fuel + 1) (quoteUnit c ++ cs)
      = (parseChars fuel cs).map (fun p => (c :: p.1, p.2)) := by
  unfold quoteUnit
  split_ifs with h1 h2 h3 h4 h5 h6 h7 h8
  · subst h1; show parseChars (fuel + 1) (92 :: 98 :: cs) = _
    rw [parseChars_backslash]; simp [parseEscape]
  · subst h2; show parseChars (fuel + 1) (92 :: 116 :: cs) = _
    rw [parseChars_backslash]; simp [parseEscape]
  · subst h3; show parseChars (fuel + 1) (92 :: 110 :: cs) = _
    rw [parseChars_backslash]; simp [parseEscape]
  · subst h4; show parseChars (fuel + 1) (92 :: 102 :: cs) = _
    rw [parseChars_backslash]; simp [parseEscape]
  · subst h5; show parseChars (fuel + 1) (92 :: 114 :: cs) = _
    rw [parseChars_backslash]; simp [parseEscape]
  · subst h6; show parseChars (fuel + 1) (92 :: 34 :: cs) = _
    rw [parseChars_backslash]; simp [parseEscape]
  · subst h7; show parseChars (fuel + 1) (92 :: 92 :: cs) = _
    rw [parseChars_backslash]; simp [parseEscape]
  · apply parseChars_unicodeEscape
    simp only [isHigh, isLow, Bool.and_eq_true, decide_eq_true_eq] at h8
    omega
  · simp only [isHigh, isLow, Bool.and_eq_true, decide_eq_true_eq, not_or, not_lt] at h8
    exact parseChars_plain c cs fuel h6 h7 (by omega)

theorem parseChars_raw (c : Nat) (cs : JSString) (fuel : Nat) (h : 55296 ≤ c) :
    parseChars (fuel + 1) (c :: cs) = (parseChars fuel cs).map (fun p => (c :: p.1, p.2)) := by
  exact parseChars_plain c cs fuel (by omega) (by omega) (by omega)

theorem quoteUnit_length_pos (c : Nat) : 0 < (quoteUnit c).length := by
  unfold quoteUnit unicodeEscape
  split_ifs <;> simp

/-- The string token reads back what `QuoteJSONString` wrote. -/
theorem parseChars_quoteUnits (s : JSString) : ∀ (rest : JSString) (fuel : Nat),
    (quoteUnits s).length < fuel →
    parseChars fuel (quoteUnits s ++ 34 :: rest) = some (s, rest) := by
  induction s using quoteUnits.induct with
  | case1 =>
    intro rest fuel hf
    obtain ⟨f, rfl⟩ : ∃ f, fuel = f + 1 := ⟨fuel - 1, by omega⟩
    simp [quoteUnits, parseChars_quote]
  | case2 c =>
    intro rest fuel hf
    have hpos := quoteUnit_length_pos c
    simp only [quoteUnits] at hf ⊢
    obtain ⟨f, rfl⟩ : ∃ f, fuel = f + 2 := ⟨fuel - 2, by omega⟩
    rw [parseChars_quoteUnit, parseChars_quote]
    rfl
  | case3 c d r hpair ih =>
    intro rest fuel hf
    have hq : quoteUnits (c :: d :: r) = c :: d :: quoteUnits r := by
      rw [quoteUnits, if_pos hpair]
    rw [hq] at hf ⊢
    simp only [List.length_cons] at hf
    obtain ⟨f, rfl⟩ : ∃ f, fuel = f + 2 := ⟨fuel - 2, by omega⟩
    simp only [isHigh, isLow, Bool.and_eq_true, decide_eq_true_eq] at hpair
    rw [List.cons_append, List.cons_append, parseChars_raw c _ _ (by omega),
      parseChars_raw d _ _ (by omega), ih rest f (by omega)]
    rfl
  | case4 c d r hpair ih =>
    intro rest fuel hf
    have hpos := quoteUnit_length_pos c
    have hq : quoteUnits (c :: d :: r) = quoteUnit c ++ quoteUnits (d :: r) := by
      rw [quoteUnits, if_neg hpair]
    rw [hq] at hf ⊢
    simp only [List.length_append] at hf
    obtain ⟨f, rfl⟩ : ∃ f, fuel = f + 1 := ⟨fuel - 1, by omega⟩
    rw [List.append_assoc, parseChars_quoteUnit, ih rest f (by omega)]
    rfl

/-! ## Property order -/

theorem keysOf_append (a b : Props) : keysOf (a ++ b) = keysOf a ++ keysOf b := by
  induction a with
  | nil => rfl
  | cons kv a ih => obtain ⟨k, v⟩ := kv; simp [keysOf, ih]

theorem hasKey_eq_false (k : JSString) (ps : Props) (h : ∀ a ∈ keysOf ps, a ≠ k) :
    hasKey k ps = false := by
  induction ps with
  | nil => rfl
  | cons kv ps ih =>
    obtain ⟨k', v⟩ := kv
    have h1 : k' ≠ k := h k' (by simp [keysOf])
    have h2 := ih (fun a ha => h a (by simp [keysOf, ha]))
    simp [hasKey, h1, h2]

theorem insertIndex_append (i : Nat) (k : JSString) (v : Val) (ps : Props)
    (h : ∀ a ∈ keysOf ps, ∃ j, arrayIndex a = some j ∧ j < i) :
    insertIndex i k v ps = ps ++ [(k, v)] := by
  induction ps with
  | nil => rfl
  | cons kv ps ih =>
    obtain ⟨k', v'⟩ := kv
    obtain ⟨j, hj, hlt⟩ := h k' (by simp [keysOf])
    have := ih (fun a ha => h a (by simp [keysOf, ha]))
    simp [insertIndex, hj, hlt, this]

/-- Adding a property that is in property order after all the present ones appends it. -/
theorem setProp_append (acc : Props) (k : JSString) (v : Val)
    (h : ∀ a ∈ keysOf acc, keyBefore a k) : setProp acc k v = acc ++ [(k, v)] := by
  unfold setProp
  rw [hasKey_eq_false k acc (fun a ha => (h a ha).1)]
  simp only [Bool.false_eq_true, if_false]
  cases hk : arrayIndex k with
  | none => rfl
  | some i =>
    apply insertIndex_append
    intro a ha
    have := (h a ha).2
    rw [hk] at this
    cases hj : arrayIndex a with
    | none => rw [hj] at this; exact this.elim
    | some j => rw [hj] at this; exact ⟨j, rfl, this⟩

/-! ## Shape of the serialised text -/

theorem js_null : js "null" = [110, 117, 108, 108] := by decide
theorem js_true : js "true" = [116, 114, 117, 101] := by decide
theorem js_false : js "false" = [102, 97, 108, 115, 101] := by decide
theorem js_zero : js "0" = [48] := by decide

theorem serialize_eq_none (v : Val) : serialize v = none ↔ v = .undefined := by
  cases v with
  | undefined => simp [serialize]
  | num n => cases n <;> simp [serialize]
  | _ => simp [serialize]

theorem throughJSON_eq_undefined (v : Val) : v.throughJSON = .undefined ↔ v = .undefined := by
  cases v with
  | num n =>
    cases n with
    | fin neg d e => by_cases h : d = 0 <;> simp [Val.throughJSON, Number.throughJSON, h]
    | _ => simp [Val.throughJSON, Number.throughJSON]
  | _ => simp [Val.throughJSON]

/-- The first character of a finite number's numeral: a digit or the minus sign. -/
theorem toJSString_head (neg : Bool) (d : Nat) (e : Int) :
    ∃ c r, (Number.fin neg d e).toJSString = c :: r ∧ (isDigit c = true ∨ c = 45) := by
  by_cases hd : d = 0
  · exact ⟨48, [], by simp [Number.toJSString, hd, js_zero], Or.inl rfl⟩
  · obtain ⟨c, r, hcr, hdig⟩ := unsignedToJSString_head d e hd
    cases neg with
    | true => exact ⟨45, c :: r, by simp [Number.toJSString, hd, hcr], Or.inr rfl⟩
    | false => exact ⟨c, r, by simp [Number.toJSString, hd, hcr], Or.inl hdig⟩

/-- Serialised text starts with a character that is neither whitespace nor a closing
bracket. -/
theorem serialize_head (v : Val) (t : JSString) (h : serialize v = some t) :
    ∃ c r, t = c :: r ∧ isWs c = false ∧ c ≠ 93 ∧ c ≠ 125 := by
  cases v with
  | undefined => simp [serialize] at h
  | null => simp [serialize, js_null] at h; subst h; exact ⟨_, _, rfl, by decide⟩
  | bool b =>
    cases b <;> simp [serialize, js_true, js_false] at h <;> subst h <;>
      exact ⟨_, _, rfl, by decide⟩
  | num n =>
    cases n with
    | fin neg d e =>
      simp only [serialize, Option.some.injEq] at h
      obtain ⟨c, r, hcr, hc⟩ := toJSString_head neg d e
      rw [hcr] at h
      subst h
      refine ⟨c, r, rfl, ?_⟩
      rcases hc with hc | hc
      · simp only [isDigit, Bool.and_eq_true, decide_eq_true_eq] at hc
        have h1 : c ≠ 9 := by omega
        have h2 : c ≠ 10 := by omega
        have h3 : c ≠ 13 := by omega
        have h4 : c ≠ 32 := by omega
        simp [isWs, h1, h2, h3, h4]; omega
      · subst hc; decide
    | nan => simp [serialize, js_null] at h; subst h; exact ⟨_, _, rfl, by decide⟩
    | inf b => simp [serialize, js_null] at h; subst h; exact ⟨_, _, rfl, by decide⟩
  | str s => simp [serialize, quote] at h; subst h; exact ⟨_, _, rfl, by decide⟩
  | arr xs => simp [serialize] at h; subst h; exact ⟨_, _, rfl, by decide⟩
  | obj ps => simp [serialize] at h; subst h; exact ⟨_, _, rfl, by decide⟩

theorem skipWs_cons (c : Nat) (r : JSString) (h : isWs c = false) :
    skipWs (c :: r) = c :: r := by
  simp [skipWs, h]

theorem Delimited.skipWs {rest : JSString} (h : Delimited rest) : skipWs rest = rest := by
  cases rest with
  | nil => rfl
  | cons c r =>
    apply skipWs_cons
    rcases h c r rfl with h | h | h <;> subst h <;> rfl

/-! ## `JSON.parse` reads back `JSON.stringify` -/

theorem parseValue_null (f : Nat) (rest : JSString) :
    parseValue (f + 1) (js "null" ++ rest) = some (.null, rest) := by
  rw [js_null]; simp [parseValue, skipWs, isWs]

theorem parseValue_bool (f : Nat) (b : Bool) (rest : JSString) :
    parseValue (f + 1) ((if b then js "true" else js "false") ++ rest)
      = some (.bool b, rest) := by
  cases b
  · rw [if_neg (by decide), js_false]; simp [parseValue, skipWs, isWs]
  · rw [if_pos rfl, js_true]; simp [parseValue, skipWs, isWs]

theorem parseValue_str (f : Nat) (s rest : JSString) :
    parseValue (f + 1) (quote s ++ rest) = some (.str s, rest) := by
  have h := parseChars_quoteUnits s rest ((quoteUnits s).length + (rest.length + 1))
    (by omega)
  simp [parseValue, quote, skipWs, isWs, h]

theorem parseValue_num (f : Nat) (neg : Bool) (d : Nat) (e : Int) (rest : JSString)
    (hc : (Number.fin neg d e).Canonical) (hr : Delimited rest) :
    parseValue (f + 1) ((Number.fin neg d e).toJSString ++ rest)
      = some ((Number.fin neg d e).throughJSON, rest) := by
  have hp := parseNumber_toJSString neg d e rest hc hr
  obtain ⟨c, r, hcr, hcd⟩ := toJSString_head neg d e
  rw [hcr] at hp ⊢
  have hc' : 45 ≤ c ∧ c ≤ 57 := by
    rcases hcd with h | h
    · simp only [isDigit, Bool.and_eq_true, decide_eq_true_eq] at h; omega
    · omega
  have hws : isWs c = false := by
    have h1 : c ≠ 9 := by omega
    have h2 : c ≠ 10 := by omega
    have h3 : c ≠ 13 := by omega
    have h4 : c ≠ 32 := by omega
    simp [isWs, h1, h2, h3, h4]
  have h1 : c ≠ 34 := by omega
  have h2 : c ≠ 91 := by omega
  have h3 : c ≠ 123 := by omega
  have h4 : c ≠ 110 := by omega
  have h5 : c ≠ 116 := by omega
  have h6 : c ≠ 102 := by omega
  rw [List.cons_append] at hp ⊢
  rw [parseValue, skipWs_cons c _ hws]
  simp only [h1, h2, h3, h4, h5, h6, if_false]
  rw [hp]
  by_cases hd : d = 0 <;> simp [Number.throughJSON, hd]

theorem elemsThroughJSON_undefined (xs : List Val) :
    elemsThroughJSON (.undefined :: xs) = .null :: elemsThroughJSON xs := by
  simp [elemsThroughJSON]

theorem elemsThroughJSON_cons (x : Val) (xs : List Val) (h : x ≠ .undefined) :
    elemsThroughJSON (x :: xs) = x.throughJSON :: elemsThroughJSON xs := by
  cases x <;> first | exact absurd rfl h | simp [elemsThroughJSON]

theorem propsThroughJSON_undefined (k : JSString) (ps : Props) :
    propsThroughJSON ((k, .undefined) :: ps) = propsThroughJSON ps := by
  simp [propsThroughJSON]

theorem propsThroughJSON_cons (k : JSString) (v : Val) (ps : Props) (h : v ≠ .undefined) :
    propsThroughJSON ((k, v) :: ps) = (k, v.throughJSON) :: propsThroughJSON ps := by
  cases v <;> first | exact absurd rfl h | simp [propsThroughJSON]

theorem serializeProps_eq_nil (ps : Props) : serializeProps ps = [] ↔ propsThroughJSON ps = [] := by
  induction ps with
  | nil => simp [serializeProps, propsThroughJSON]
  | cons kv ps ih =>
    obtain ⟨k, v⟩ := kv
    by_cases hv : v = .undefined
    · subst hv
      simp [serializeProps, serialize, propsThroughJSON_undefined, ih]
    · obtain ⟨t, ht⟩ := Option.ne_none_iff_exists'.mp (mt (serialize_eq_none v).mp hv)
      simp [serializeProps, ht, propsThroughJSON_cons k v ps hv]

theorem joinComma_cons_cons (p q : JSString) (ps : List JSString) :
    joinComma (p :: q :: ps) = p ++ 44 :: joinComma (q :: ps) := by
  simp [joinComma]

theorem joinComma_single (p : JSString) : joinComma [p] = p := by
  simp [joinComma]

theorem serializeElems_head (x : Val) :
    ∃ c r, (serialize x).getD (js "null") = c :: r ∧ isWs c = false ∧ c ≠ 93 ∧ c ≠ 125 := by
  cases h : serialize x with
  | none => exact ⟨110, [117, 108, 108], by simp [js_null], by decide⟩
  | some t => exact serialize_head x t h

theorem delimited_comma (r : JSString) : Delimited (44 :: r) := by
  intro c r' h; cases h; exact Or.inl rfl

theorem delimited_bracket (r : JSString) : Delimited (93 :: r) := by
  intro c r' h; cases h; exact Or.inr (Or.inl rfl)

theorem delimited_brace (r : JSString) : Delimited (125 :: r) := by
  intro c r' h; cases h; exact Or.inr (Or.inr rfl)

theorem joinComma_cons (p : JSString) (ps : List JSString) (h : ps ≠ []) :
    joinComma (p :: ps) = p ++ 44 :: joinComma ps := by
  obtain ⟨q, qs, rfl⟩ := List.exists_cons_of_ne_nil h
  exact joinComma_cons_cons p q qs

theorem keysOf_propsThroughJSON_sublist (ps : Props) :
    List.Sublist (keysOf (propsThroughJSON ps)) (keysOf ps) := by
  induction ps with
  | nil => simp [propsThroughJSON, keysOf]
  | cons kv ps ih =>
    obtain ⟨k, v⟩ := kv
    by_cases hv : v = .undefined
    · subst hv
      rw [propsThroughJSON_undefined]
      exact List.Sublist.cons _ ih
    · rw [propsThroughJSON_cons k v ps hv]
      exact List.Sublist.cons₂ _ ih

theorem serializeProps_head (ps : Props) (hne : serializeProps ps ≠ []) :
    ∃ r, joinComma (serializeProps ps) = 34 :: r := by
  obtain ⟨p, q, hpq⟩ := List.exists_cons_of_ne_nil hne
  have hp : ∃ r, p = 34 :: r := by
    have hmem : p ∈ serializeProps ps := by rw [hpq]; simp
    clear hpq hne
    induction ps with
    | nil => simp [serializeProps] at hmem
    | cons kv ps ih =>
      obtain ⟨k, v⟩ := kv
      cases hs : serialize v with
      | none => simp only [serializeProps, hs] at hmem; exact ih hmem
      | some t =>
        simp only [serializeProps, hs, List.mem_cons] at hmem
        rcases hmem with h | h
        · exact ⟨_, by rw [h]; rfl⟩
        · exact ih h
  obtain ⟨r, rfl⟩ := hp
  rw [hpq]
  cases q with
  | nil => exact ⟨r, by simp [joinComma]⟩
  | cons q1 qs => exact ⟨r ++ 44 :: joinComma (q1 :: qs), by rw [joinComma_cons_cons]; rfl⟩

mutual
/-- Parsing the text `JSON.stringify` wrote for a canonical value gives the value back, up
to what JSON cannot keep. -/
theorem parseValue_serialize : ∀ (v : Val), v.Canonical → ∀ (t : JSString),
    serialize v = some t → ∀ (rest : JSString), Delimited rest → ∀ (fuel : Nat),
    t.length < fuel → parseValue fuel (t ++ rest) = some (v.throughJSON, rest)
  | .undefined, _, t, ht, _, _, _, _ => by simp [serialize] at ht
  | .null, _, t, ht, rest, _, fuel, hf => by
    obtain ⟨f, rfl⟩ : ∃ f, fuel = f + 1 := ⟨fuel - 1, by omega⟩
    simp only [serialize, Option.some.injEq] at ht
    subst ht
    exact parseValue_null f rest
  | .bool b, _, t, ht, rest, _, fuel, hf => by
    obtain ⟨f, rfl⟩ : ∃ f, fuel = f + 1 := ⟨fuel - 1, by omega⟩
    simp only [serialize, Option.some.injEq] at ht
    subst ht
    exact parseValue_bool f b rest
  | .str s, _, t, ht, rest, _, fuel, hf => by
    obtain ⟨f, rfl⟩ : ∃ f, fuel = f + 1 := ⟨fuel - 1, by omega⟩
    simp only [serialize, Option.some.injEq] at ht
    subst ht
    exact parseValue_str f s rest
  | .num n, hc, t, ht, rest, hr, fuel, hf => by
    obtain ⟨f, rfl⟩ : ∃ f, fuel = f + 1 := ⟨fuel - 1, by omega⟩
    cases n with
    | fin neg d e =>
      simp only [serialize, Option.some.injEq] at ht
      subst ht
      exact parseValue_num f neg d e rest (by simpa [Val.Canonical] using hc) hr
    | nan =>
      simp only [serialize, Option.some.injEq] at ht
      subst ht
      exact parseValue_null f rest
    | inf b =>
      simp only [serialize, Option.some.injEq] at ht
      subst ht
      exact parseValue_null f rest
  | .arr xs, hc, t, ht, rest, _, fuel, hf => by
    obtain ⟨f, rfl⟩ : ∃ f, fuel = f + 1 := ⟨fuel - 1, by omega⟩
    simp only [serialize, Option.some.injEq] at ht
    subst ht
    simp only [List.length_cons, List.length_append, List.length_nil] at hf
    cases xs with
    | nil =>
      simp [parseValue, serializeElems, joinComma, skipWs, isWs, Val.throughJSON, elemsThroughJSON]
    | cons x xs' =>
      have ih := parseElems_serialize (x :: xs') (by simpa [Val.Canonical] using hc)
        (by simp) [] rest f (by omega)
      obtain ⟨c, r, hcr, hws, h93, _⟩ := serializeElems_head x
      have hj : ∃ r', joinComma (serializeElems (x :: xs')) = c :: r' := by
        cases xs' with
        | nil => exact ⟨r, by simp [serializeElems, joinComma, hcr]⟩
        | cons y ys =>
          exact ⟨r ++ 44 :: joinComma (serializeElems (y :: ys)), by
            rw [serializeElems, joinComma_cons _ _ (by simp [serializeElems]), hcr]; rfl⟩
      obtain ⟨r', hr'⟩ := hj
      rw [hr'] at ih
      rw [parseValue]
      simp only [List.cons_append, List.append_assoc, List.nil_append, hr'] at ih ⊢
      rw [skipWs_cons 91 _ (by decide)]
      simp only [show (91 : Nat) ≠ 34 by decide, if_false, if_true]
      rw [skipWs_cons c _ hws]
      simp only [h93, if_false]
      rw [ih]
      simp [Val.throughJSON]
  | .obj ps, hc, t, ht, rest, _, fuel, hf => by
    obtain ⟨f, rfl⟩ : ∃ f, fuel = f + 1 := ⟨fuel - 1, by omega⟩
    simp only [serialize, Option.some.injEq] at ht
    subst ht
    simp only [List.length_cons, List.length_append, List.length_nil] at hf
    have hc' : CanonicalProps ps ∧ List.Pairwise keyBefore (keysOf ps) := by
      simpa [Val.Canonical] using hc
    by_cases hne : serializeProps ps = []
    · have hp := (serializeProps_eq_nil ps).mp hne
      simp [parseValue, hne, joinComma, skipWs, isWs, Val.throughJSON, hp]
    · have ih := parseMembers_serialize ps hc'.1 [] (by
        simp only [keysOf, List.nil_append]
        exact List.Pairwise.sublist (keysOf_propsThroughJSON_sublist ps) hc'.2) hne rest f (by omega)
      obtain ⟨p, q, hpq⟩ := List.exists_cons_of_ne_nil hne
      obtain ⟨r', hr'⟩ : ∃ r', joinComma (serializeProps ps) = 34 :: r' :=
        serializeProps_head ps hne
      rw [hr'] at ih
      rw [parseValue]
      simp only [List.cons_append, List.append_assoc, List.nil_append, hr'] at ih ⊢
      rw [skipWs_cons 123 _ (by decide)]
      simp only [show (123 : Nat) ≠ 34 by decide, show (123 : Nat) ≠ 91 by decide, if_false,
        if_true]
      rw [skipWs_cons 34 _ (by decide)]
      simp only [show (34 : Nat) ≠ 125 by decide, if_false]
      rw [ih]
      simp [Val.throughJSON]
/-- Parsing the serialised elements of an array after `[`. -/
theorem parseElems_serialize : ∀ (xs : List Val), CanonicalElems xs → xs ≠ [] →
    ∀ (acc : List Val) (rest : JSString) (fuel : Nat),
    (joinComma (serializeElems xs)).length + 1 < fuel →
    parseElems fuel (joinComma (serializeElems xs) ++ 93 :: rest) acc
      = some (.arr (acc ++ elemsThroughJSON xs), rest)
  | [], _, hne, _, _, _, _ => absurd rfl hne
  | x :: xs, hc, _, acc, rest, fuel, hf => by
    obtain ⟨f, rfl⟩ : ∃ f, fuel = f + 1 := ⟨fuel - 1, by omega⟩
    have hcx : x.Canonical ∧ CanonicalElems xs := by simpa [CanonicalElems] using hc
    -- the value at the head
    have hv : ∀ rest', Delimited rest' → ((serialize x).getD (js "null")).length < f →
        ∃ y, parseValue f ((serialize x).getD (js "null") ++ rest') = some (y, rest') ∧
          elemsThroughJSON (x :: xs) = y :: elemsThroughJSON xs := by
      intro rest' hd hl
      cases hs : serialize x with
      | none =>
        have hx := (serialize_eq_none x).mp hs
        subst hx
        obtain ⟨g, rfl⟩ : ∃ g, f = g + 1 := ⟨f - 1, by rw [hs] at hl; simp at hl; omega⟩
        exact ⟨.null, by simpa using parseValue_null g rest', elemsThroughJSON_undefined xs⟩
      | some t =>
        have hx : x ≠ .undefined := fun h => by
          rw [(serialize_eq_none x).mpr h] at hs; cases hs
        rw [hs] at hl
        exact ⟨x.throughJSON, parseValue_serialize x hcx.1 t hs rest' hd f (by simpa using hl),
          elemsThroughJSON_cons x xs hx⟩
    obtain ⟨c, r, hcr, _, _, _⟩ := serializeElems_head x
    have hlen : 0 < ((serialize x).getD (js "null")).length := by rw [hcr]; simp
    cases xs with
    | nil =>
      simp only [serializeElems, joinComma_single] at hf ⊢
      obtain ⟨y, hy, hey⟩ := hv (93 :: rest) (delimited_bracket rest) (by omega)
      rw [parseElems, hy, hey]
      simp [skipWs, isWs, elemsThroughJSON]
    | cons x' xs' =>
      have hj : joinComma (serializeElems (x :: x' :: xs'))
          = (serialize x).getD (js "null") ++ 44 :: joinComma (serializeElems (x' :: xs')) := by
        rw [serializeElems, joinComma_cons _ _ (by simp [serializeElems])]
      rw [hj] at hf ⊢
      simp only [List.length_append, List.length_cons] at hf
      obtain ⟨y, hy, hey⟩ := hv (44 :: (joinComma (serializeElems (x' :: xs')) ++ 93 :: rest))
        (delimited_comma _) (by omega)
      have ih := parseElems_serialize (x' :: xs') hcx.2 (by simp) (acc ++ [y]) rest f
        (by omega)
      rw [parseElems]
      simp only [List.append_assoc, List.cons_append] at hy ⊢
      rw [hy, hey]
      simp only [skipWs, isWs]
      simpa using ih
/-- Parsing the serialised members of an object after `{`. -/
theorem parseMembers_serialize : ∀ (ps : Props), CanonicalProps ps → ∀ (acc : Props),
    List.Pairwise keyBefore (keysOf acc ++ keysOf (propsThroughJSON ps)) →
    serializeProps ps ≠ [] → ∀ (rest : JSString) (fuel : Nat),
    (joinComma (serializeProps ps)).length + 1 < fuel →
    parseMembers fuel (joinComma (serializeProps ps) ++ 125 :: rest) acc
      = some (.obj (acc ++ propsThroughJSON ps), rest)
  | [], _, _, _, hne, _, _, _ => absurd rfl hne
  | (k, v) :: ps, hc, acc, hord, hne, rest, fuel, hf => by
    have hcv : v.Canonical ∧ CanonicalProps ps := by simpa [CanonicalProps] using hc
    by_cases hv : v = .undefined
    · subst hv
      have hs : serializeProps ((k, .undefined) :: ps) = serializeProps ps := by
        simp [serializeProps, serialize]
      rw [hs] at hne hf ⊢
      rw [propsThroughJSON_undefined] at hord ⊢
      exact parseMembers_serialize ps hcv.2 acc hord hne rest fuel hf
    · obtain ⟨f, rfl⟩ : ∃ f, fuel = f + 1 := ⟨fuel - 1, by omega⟩
      obtain ⟨t, ht⟩ := Option.ne_none_iff_exists'.mp (mt (serialize_eq_none v).mp hv)
      have hs : serializeProps ((k, v) :: ps) = (quote k ++ 58 :: t) :: serializeProps ps := by
        simp [serializeProps, ht]
      rw [propsThroughJSON_cons k v ps hv] at hord ⊢
      have hset : setProp acc k v.throughJSON = acc ++ [(k, v.throughJSON)] := by
        apply setProp_append
        intro a ha
        simp only [keysOf] at hord
        exact (List.pairwise_append.mp hord).2.2 a ha k (by simp)
      have hkey : ∀ tail : JSString, parseChars (quoteUnits k ++ 34 :: tail).length
          (quoteUnits k ++ 34 :: tail) = some (k, tail) := fun tail =>
        parseChars_quoteUnits k tail _ (by simp)
      rw [hs] at hf ⊢
      by_cases hps : serializeProps ps = []
      · have hpj := (serializeProps_eq_nil ps).mp hps
        rw [hps, joinComma_single] at hf ⊢
        simp only [List.length_append, List.length_cons] at hf
        have hval := parseValue_serialize v hcv.1 t ht (125 :: rest) (delimited_brace rest) f
          (by omega)
        rw [parseMembers]
        simp only [quote, List.cons_append, List.append_assoc, List.nil_append]
        rw [skipWs_cons 34 _ (by decide)]
        simp only [if_true, hkey]
        rw [skipWs_cons 58 _ (by decide)]
        simp only [if_true, hval]
        simp [skipWs, isWs, hset, hpj]
      · obtain ⟨p, q, hpq⟩ := List.exists_cons_of_ne_nil hps
        have hj : joinComma ((quote k ++ 58 :: t) :: serializeProps ps)
            = (quote k ++ 58 :: t) ++ 44 :: joinComma (serializeProps ps) := by
          rw [hpq, joinComma_cons_cons]
        rw [hj] at hf ⊢
        simp only [List.length_append, List.length_cons] at hf
        have hval := parseValue_serialize v hcv.1 t ht
          (44 :: (joinComma (serializeProps ps) ++ 125 :: rest)) (delimited_comma _) f
          (by omega)
        have ih := parseMembers_serialize ps hcv.2 (acc ++ [(k, v.throughJSON)]) (by
          rw [keysOf_append]
          simpa [keysOf] using hord) hps rest f (by omega)
        rw [parseMembers]
        simp only [quote, List.cons_append, List.append_assoc, List.nil_append]
        rw [skipWs_cons 34 _ (by decide)]
        simp only [if_true, hkey]
        rw [skipWs_cons 58 _ (by decide)]
        simp only [if_true, hval]
        simp only [skipWs, isWs, hset]
        simpa using ih
end

theorem skipWs_length (cs : JSString) : (skipWs cs).length ≤ cs.length := by
  induction cs with
  | nil => simp [skipWs]
  | cons c cs ih =>
    unfold skipWs
    split_ifs
    · simp only [List.length_cons]; omega
    · exact le_refl _

theorem takeDigits_length (cs : JSString) : (takeDigits cs).2.length ≤ cs.length := by
  induction cs with
  | nil => simp [takeDigits]
  | cons c cs ih =>
    unfold takeDigits
    split_ifs
    · simp only [List.length_cons]; omega
    · exact le_refl _

theorem parseInt_length (cs ip r : JSString) (h : parseInt cs = some (ip, r)) :
    r.length < cs.length := by
  cases cs with
  | nil => simp [parseInt] at h
  | cons c cs =>
    simp only [parseInt] at h
    split_ifs at h
    · simp only [Option.some.injEq, Prod.mk.injEq] at h
      rw [← h.2]; simp
    · simp only [Option.some.injEq, Prod.mk.injEq] at h
      rw [← h.2]
      have := takeDigits_length cs
      simp only [List.length_cons]; omega

theorem parseFrac_length (cs fp r : JSString) (h : parseFrac cs = some (fp, r)) :
    r.length ≤ cs.length := by
  unfold parseFrac at h
  split at h
  · rename_i r0
    split_ifs at h
    simp only [Option.some.injEq] at h
    have := takeDigits_length r0
    rw [h] at this
    simp only [List.length_cons] at this ⊢; omega
  · simp only [Option.some.injEq, Prod.mk.injEq] at h
    rw [← h.2]

theorem parseExpDigits_length (neg : Bool) (cs r : JSString) (x : Int)
    (h : parseExpDigits neg cs = some (x, r)) : r.length ≤ cs.length := by
  unfold parseExpDigits at h
  split_ifs at h <;>
  · simp only [Option.some.injEq, Prod.mk.injEq] at h
    rw [← h.2]
    exact takeDigits_length cs

theorem parseExp_length (cs r : JSString) (x : Int) (h : parseExp cs = some (x, r)) :
    r.length ≤ cs.length := by
  unfold parseExp at h
  split at h
  · simp only [Option.some.injEq, Prod.mk.injEq] at h
    rw [← h.2]
  · split_ifs at h
    · split at h
      · have := parseExpDigits_length _ _ _ _ h
        simp only [List.length_cons] at this ⊢; omega
      · have := parseExpDigits_length _ _ _ _ h
        simp only [List.length_cons] at this ⊢; omega
      · have := parseExpDigits_length _ _ _ _ h
        simp only [List.length_cons] at this ⊢; omega
    · simp only [Option.some.injEq, Prod.mk.injEq] at h
      rw [← h.2]

theorem parseUnsigned_length (neg : Bool) (cs r : JSString) (n : Number)
    (h : parseUnsigned neg cs = some (n, r)) : r.length < cs.length := by
  unfold parseUnsigned at h
  split at h
  · cases h
  · rename_i ip r1 h1
    split at h
    · cases h
    · rename_i fp r2 h2
      split at h
      · cases h
      · rename_i ex r3 h3
        simp only [Option.some.injEq, Prod.mk.injEq] at h
        rw [← h.2]
        have := parseInt_length _ _ _ h1
        have := parseFrac_length _ _ _ h2
        have := parseExp_length _ _ _ h3
        omega

theorem parseNumber_length (cs r : JSString) (n : Number)
    (h : parseNumber cs = some (n, r)) : r.length < cs.length := by
  unfold parseNumber at h
  split at h
  · have := parseUnsigned_length _ _ _ _ h
    simp only [List.length_cons]; omega
  · exact parseUnsigned_length _ _ _ _ h

theorem parseEscape_length (cs r : JSString) (x : Nat) (h : parseEscape cs = some (x, r)) :
    r.length < cs.length := by
  cases cs with
  | nil => simp [parseEscape] at h
  | cons e r1 =>
    by_cases he : e = 117
    · subst he
      simp only [parseEscape, if_true] at h
      split at h
      · split at h
        · simp only [Option.some.injEq, Prod.mk.injEq] at h
          rw [← h.2]; simp only [List.length_cons]; omega
        · cases h
      · cases h
    · have key : ∀ y, parseEscape (e :: r1) = some y → y.2 = r1 := by
        intro y hy
        simp only [parseEscape, he, if_false] at hy
        repeat' split at hy
        all_goals first | cases hy; rfl | cases hy
      have := key _ h
      simp only at this
      rw [this]; simp

theorem parseChars_length : ∀ (fuel : Nat) (cs s r : JSString),
    parseChars fuel cs = some (s, r) → r.length < cs.length := by
  intro fuel
  induction fuel with
  | zero => intro cs s r h; simp [parseChars] at h
  | succ f ih =>
    intro cs s r h
    cases cs with
    | nil => simp [parseChars] at h
    | cons c cs =>
      by_cases h1 : c = 34
      · subst h1
        rw [parseChars_quote] at h
        simp only [Option.some.injEq, Prod.mk.injEq] at h
        rw [← h.2]; simp
      · by_cases h2 : c = 92
        · subst h2
          rw [parseChars_backslash] at h
          split at h
          · cases h
          · rename_i x r1 he
            simp only [Option.map_eq_some', Prod.mk.injEq] at h
            obtain ⟨p, hp, _, hr⟩ := h
            have h3 := ih _ _ _ (show parseChars f _ = some (p.1, p.2) from hp)
            have h4 := parseEscape_length _ _ _ he
            rw [← hr]
            simp only [List.length_cons]; omega
        · by_cases h3 : c < 32
          · rw [parseChars.eq_def] at h
            simp [h1, h2, h3] at h
          · rw [parseChars_plain c cs f h1 h2 h3] at h
            simp only [Option.map_eq_some', Prod.mk.injEq] at h
            obtain ⟨p, hp, _, hr⟩ := h
            have h4 := ih _ _ _ (show parseChars f _ = some (p.1, p.2) from hp)
            rw [← hr]
            simp only [List.length_cons]; omega

/-- A parse that succeeds with some fuel consumes input and succeeds, with the same
result, with any fuel above the number of characters it consumes. -/
theorem parse_fuel_aux (fuel : Nat) :
    (∀ cs v r, parseValue fuel cs = some (v, r) → r.length < cs.length ∧
      ∀ g, cs.length - r.length < g → parseValue g cs = some (v, r)) ∧
    (∀ cs acc v r, parseElems fuel cs acc = some (v, r) → r.length < cs.length ∧
      ∀ g, cs.length - r.length < g → parseElems g cs acc = some (v, r)) ∧
    (∀ cs acc v r, parseMembers fuel cs acc = some (v, r) → r.length < cs.length ∧
      ∀ g, cs.length - r.length < g → parseMembers g cs acc = some (v, r)) := by
  induction fuel with
  | zero =>
    refine ⟨?_, ?_, ?_⟩
    · intro cs v r h; simp [parseValue] at h
    · intro cs acc v r h; simp [parseElems] at h
    · intro cs acc v r h; simp [parseMembers] at h
  | succ f ih =>
    obtain ⟨ihv, ihe, ihm⟩ := ih
    refine ⟨?_, ?_, ?_⟩
    · intro cs v r h
      rw [parseValue] at h
      split at h
      · cases h
      · rename_i c r0 heq
        have hlen := skipWs_length cs
        rw [heq] at hlen
        simp only [List.length_cons] at hlen
        split_ifs at h with h1 h2 h3 h4 h5 h6
        · simp only [Option.map_eq_some', Prod.mk.injEq] at h
          obtain ⟨p, hp, hv, hr⟩ := h
          have hl := parseChars_length _ _ _ _ (show parseChars _ _ = some (p.1, p.2) from hp)
          rw [hr] at hl
          refine ⟨by omega, fun g hg => ?_⟩
          obtain ⟨g', rfl⟩ : ∃ g', g = g' + 1 := ⟨g - 1, by omega⟩
          rw [parseValue, heq]
          simp [h1, if_true, hp, Option.map_some', hv, hr]
        · split at h
          · cases h
          · rename_i d r1 heq2
            have hlen2 := skipWs_length r0
            rw [heq2] at hlen2
            simp only [List.length_cons] at hlen2
            split_ifs at h with h7
            · simp only [Option.some.injEq, Prod.mk.injEq] at h
              refine ⟨by rw [← h.2]; omega, fun g hg => ?_⟩
              obtain ⟨g', rfl⟩ : ∃ g', g = g' + 1 := ⟨g - 1, by omega⟩
              rw [parseValue, heq]
              simp [h1, h2, if_true, if_false, heq2, h7, h.1, h.2]
            · obtain ⟨hl, hg'⟩ := ihe _ _ _ _ h
              simp only [List.length_cons] at hl hg'
              refine ⟨by omega, fun g hg => ?_⟩
              obtain ⟨g', rfl⟩ : ∃ g', g = g' + 1 := ⟨g - 1, by omega⟩
              rw [parseValue, heq]
              simp [h1, h2, if_true, if_false, heq2, h7]
              exact hg' g' (by omega)
        · split at h
          · cases h
          · rename_i d r1 heq2
            have hlen2 := skipWs_length r0
            rw [heq2] at hlen2
            simp only [List.length_cons] at hlen2
            split_ifs at h with h7
            · simp only [Option.some.injEq, Prod.mk.injEq] at h
              refine ⟨by rw [← h.2]; omega, fun g hg => ?_⟩
              obtain ⟨g', rfl⟩ : ∃ g', g = g' + 1 := ⟨g - 1, by omega⟩
              rw [parseValue, heq]
              simp [h1, h2, h3, if_true, if_false, heq2, h7, h.1, h.2]
            · obtain ⟨hl, hg'⟩ := ihm _ _ _ _ h
              simp only [List.length_cons] at hl hg'
              refine ⟨by omega, fun g hg => ?_⟩
              obtain ⟨g', rfl⟩ : ∃ g', g = g' + 1 := ⟨g - 1, by omega⟩
              rw [parseValue, heq]
              simp [h1, h2, h3, if_true, if_false, heq2, h7]
              exact hg' g' (by omega)
        · split at h
          · rename_i r1
            simp only [Option.some.injEq, Prod.mk.injEq] at h
            simp only [List.length_cons] at hlen
            refine ⟨by rw [← h.2]; omega, fun g hg => ?_⟩
            obtain ⟨g', rfl⟩ : ∃ g', g = g' + 1 := ⟨g - 1, by omega⟩
            rw [parseValue, heq]
            simp [h1, h2, h3, h4, if_true, if_false, h.1, h.2]
          · cases h
        · split at h
          · rename_i r1
            simp only [Option.some.injEq, Prod.mk.injEq] at h
            simp only [List.length_cons] at hlen
            refine ⟨by rw [← h.2]; omega, fun g hg => ?_⟩
            obtain ⟨g', rfl⟩ : ∃ g', g = g' + 1 := ⟨g - 1, by omega⟩
            rw [parseValue, heq]
            simp [h1, h2, h3, h4, h5, if_true, if_false, h.1, h.2]
          · cases h
        · split at h
          · rename_i r1
            simp only [Option.some.injEq, Prod.mk.injEq] at h
            simp only [List.length_cons] at hlen
            refine ⟨by rw [← h.2]; omega, fun g hg => ?_⟩
            obtain ⟨g', rfl⟩ : ∃ g', g = g' + 1 := ⟨g - 1, by omega⟩
            rw [parseValue, heq]
            simp [h1, h2, h3, h4, h5, h6, if_true, if_false, h.1, h.2]
          · cases h
        · simp only [Option.map_eq_some', Prod.mk.injEq] at h
          obtain ⟨p, hp, hv, hr⟩ := h
          have hl := parseNumber_length _ _ _ (show parseNumber _ = some (p.1, p.2) from hp)
          rw [hr] at hl
          simp only [List.length_cons] at hl
          refine ⟨by omega, fun g hg => ?_⟩
          obtain ⟨g', rfl⟩ : ∃ g', g = g' + 1 := ⟨g - 1, by omega⟩
          rw [parseValue, heq]
          simp [h1, h2, h3, h4, h5, h6, if_false, hp, Option.map_some', hv, hr]
    · intro cs acc v r h
      rw [parseElems] at h
      split at h
      · cases h
      · rename_i x r0 hx
        obtain ⟨hlx, hgx⟩ := ihv _ _ _ hx
        split at h
        · cases h
        · rename_i c r1 heq
          have hlen := skipWs_length r0
          rw [heq] at hlen
          simp only [List.length_cons] at hlen
          split_ifs at h with h1 h2
          · obtain ⟨hl, hg'⟩ := ihe _ _ _ _ h
            refine ⟨by omega, fun g hg => ?_⟩
            obtain ⟨g', rfl⟩ : ∃ g', g = g' + 1 := ⟨g - 1, by omega⟩
            rw [parseElems, hgx g' (by omega)]
            simp only [heq, h1, if_true]
            exact hg' g' (by omega)
          · simp only [Option.some.injEq, Prod.mk.injEq] at h
            refine ⟨by rw [← h.2]; omega, fun g hg => ?_⟩
            obtain ⟨g', rfl⟩ : ∃ g', g = g' + 1 := ⟨g - 1, by omega⟩
            rw [parseElems, hgx g' (by rw [← h.2] at hg; omega)]
            simp [heq, h2, h.1, h.2]
    · intro cs acc v r h
      rw [parseMembers] at h
      split at h
      · cases h
      · rename_i q r0 heq
        have hlen := skipWs_length cs
        rw [heq] at hlen
        simp only [List.length_cons] at hlen
        split_ifs at h with h1
        split at h
        · cases h
        · rename_i k r1 hk
          have hlk := parseChars_length _ _ _ _ hk
          split at h
          · cases h
          · rename_i c r2 heq2
            have hlen2 := skipWs_length r1
            rw [heq2] at hlen2
            simp only [List.length_cons] at hlen2
            split_ifs at h with h2
            split at h
            · cases h
            · rename_i x r3 hx
              obtain ⟨hlx, hgx⟩ := ihv _ _ _ hx
              split at h
              · cases h
              · rename_i d r4 heq3
                have hlen3 := skipWs_length r3
                rw [heq3] at hlen3
                simp only [List.length_cons] at hlen3
                split_ifs at h with h3 h4
                · obtain ⟨hl, hg'⟩ := ihm _ _ _ _ h
                  refine ⟨by omega, fun g hg => ?_⟩
                  obtain ⟨g', rfl⟩ : ∃ g', g = g' + 1 := ⟨g - 1, by omega⟩
                  rw [parseMembers, heq]
                  simp [h1, if_true, hk, heq2, h2, hgx g' (by omega), heq3, h3]
                  exact hg' g' (by omega)
                · simp only [Option.some.injEq, Prod.mk.injEq] at h
                  refine ⟨by rw [← h.2]; omega, fun g hg => ?_⟩
                  obtain ⟨g', rfl⟩ : ∃ g', g = g' + 1 := ⟨g - 1, by omega⟩
                  rw [parseMembers, heq]
                  simp [h1, if_true, hk, heq2, h2,
                    hgx g' (by rw [← h.2] at hg; omega), heq3, h3, h4, if_false, h.1, h.2]

/-- The fuel `JSON.parse` passes is enough: whatever any amount of fuel parses, the fuel
`text.length + 1` parses to the same value. -/
theorem JSON.parse_fuel (text : JSString) (fuel : Nat) (v : Val) (r : JSString)
    (h : parseValue fuel text = some (v, r)) :
    parseValue (text.length + 1) text = some (v, r) :=
  ((parse_fuel_aux fuel).1 text v r h).2 (text.length + 1) (by omega)

/-- The function `JSON.parse` accepts every text the parser accepts with any fuel: a
SyntaxError is never caused by the fuel. -/
theorem JSON.parse_complete (text : JSString) (fuel : Nat) (v : Val) (r : JSString)
    (h : parseValue fuel text = some (v, r)) (hr : skipWs r = []) :
    JSON.parse text = .ok v := by
  simp [JSON.parse, JSON.parse_fuel text fuel v r h, hr]

end AuthContext
